import Mathlib

/-!
# Shader::Compile (Source/Graphics/Shader.cpp)

A shallow embedding of the shader compilation pipeline of the engine:
the version-directive splitter, the per-stage compile loop, the program
link / attach / detach sequence and the scope guards, over an arbitrary
graphics driver given as a state machine.  Every driver call is recorded in a
chronological trace so that ordering and resource-release properties can be
stated about the call sequence.
-/

namespace Graphics

/-! ## std::string and std::size_t -/

/-- A std::string: a finite sequence of characters. -/
abbrev Str := List Char

/-- Number of values of std::size_t (64-bit). -/
def sizeModulus : Nat := 2 ^ 64

/-- The constant std::string::npos, the largest std::size_t. -/
def npos : Nat := sizeModulus - 1

/-- Addition of two std::size_t values (wraps modulo 2^64). -/
def sizeAdd (a b : Nat) : Nat := (a + b) % sizeModulus

/-- Subtraction of two std::size_t values (wraps modulo 2^64). -/
def sizeSub (a b : Nat) : Nat := (a + sizeModulus - b % sizeModulus) % sizeModulus

/-- Scan of std::string::find: `rest` is the text from index `i` on; the
result is the first index at which `needle` starts, or npos. -/
def findFrom (needle : Str) : Str → Nat → Nat
  | [], i => if needle.isPrefixOf [] then i else npos
  | c :: cs, i => if needle.isPrefixOf (c :: cs) then i else findFrom needle cs (i + 1)

/-- The call `s.find(needle, pos)` of std::string: the first index at or after
`pos` where `needle` occurs, npos when there is none (also when `pos` is past
the end). -/
def find (s needle : Str) (pos : Nat) : Nat :=
  if pos > s.length then npos else findFrom needle (s.drop pos) pos

/-- The call `s.find(c, pos)` of std::string for a single character. -/
def findChar (s : Str) (c : Char) (pos : Nat) : Nat :=
  if pos ≥ s.length then npos else findFrom [c] (s.drop pos) pos

/-- The call `s.substr(pos, count)`: throws std::out_of_range (none) when
`pos` is past the end, otherwise the characters `[pos, pos + count)` clipped
to the end of the string. -/
def substr (s : Str) (pos count : Nat) : Option Str :=
  if pos > s.length then none else some ((s.drop pos).take (min count (s.length - pos)))

/-- The call `s.erase(pos, count)`: throws std::out_of_range (none) when `pos`
is past the end, otherwise removes `min(count, size - pos)` characters starting
at `pos`. -/
def erase (s : Str) (pos count : Nat) : Option Str :=
  if pos > s.length then none
  else some (s.take pos ++ s.drop (pos + min count (s.length - pos)))

/-- The call `s.c_str()` read as a null-terminated C string: what a reader of
the returned pointer sees, namely the characters before the first NUL. -/
def c_str (s : Str) : Str := s.takeWhile (fun ch => ch != Char.ofNat 0)

/-- The version-directive token searched for by Compile. -/
def versionToken : Str := "#version ".toList

/-- Lines 104-114 of Shader.cpp: the version extraction.  Returns the pair
(shaderVersion, shaderCode) after the block, or none when substr or erase
throws. -/
def extractVersion (shaderCode : Str) : Option (Str × Str) :=
  let versionStart := find shaderCode versionToken 0
  let versionEnd := findChar shaderCode '\n' versionStart
  if versionStart ≠ npos then
    match substr shaderCode versionStart (sizeAdd (sizeSub versionEnd versionStart) 1) with
    | none => none
    | some shaderVersion =>
      match erase shaderCode versionStart (sizeAdd versionEnd 1) with
      | none => none
      | some shaderCode1 => some (shaderVersion, shaderCode1)
  else
    some ([], shaderCode)

/-! ## The graphics driver -/

/-- An OpenGL object name (GLuint). -/
abbrev GLuint := Nat

/-- An OpenGL enumerant (GLenum). -/
abbrev GLenum := Nat

def GL_FALSE : Int := 0
def GL_FRAGMENT_SHADER : GLenum := 0x8B30
def GL_VERTEX_SHADER : GLenum := 0x8B31
def GL_GEOMETRY_SHADER : GLenum := 0x8DD9
def GL_COMPILE_STATUS : GLenum := 0x8B81
def GL_LINK_STATUS : GLenum := 0x8B82
def GL_INFO_LOG_LENGTH : GLenum := 0x8B84

/-- The driver as a state machine over an arbitrary state `σ`: every entry
point used by Compile, with the values it hands back.  A status query yields
the GLint left in the (zero-initialised) output variable; an info-log length is
a GLint that OpenGL defines to be non-negative, hence a natural number. -/
structure Driver (σ : Type) where
  createShader : GLenum → σ → GLuint × σ
  shaderSource : GLuint → List Str → σ → σ
  compileShader : GLuint → σ → σ
  shaderCompileStatus : GLuint → σ → Int × σ
  shaderInfoLogLength : GLuint → σ → Nat × σ
  shaderInfoLog : GLuint → Nat → σ → Str × σ
  createProgram : σ → GLuint × σ
  attachShader : GLuint → GLuint → σ → σ
  linkProgram : GLuint → σ → σ
  detachShader : GLuint → GLuint → σ → σ
  programLinkStatus : GLuint → σ → Int × σ
  programInfoLogLength : GLuint → σ → Nat × σ
  programInfoLog : GLuint → Nat → σ → Str × σ
  deleteShader : GLuint → σ → σ
  deleteProgram : GLuint → σ → σ

/-- One driver call as it appears in the call sequence, with its arguments and
the value the driver returned.  The segments of glShaderSource are the C strings
the driver reads through the pointers it is passed (the length array is null, so
each one ends at its first NUL), in order. -/
inductive GLCall where
  | glCreateShader (type : GLenum) (result : GLuint)
  | glShaderSource (shader : GLuint) (segments : List Str)
  | glCompileShader (shader : GLuint)
  | glGetShaderiv (shader : GLuint) (pname : GLenum) (value : Int)
  | glGetShaderInfoLog (shader : GLuint) (bufSize : Nat)
  | glCreateProgram (result : GLuint)
  | glAttachShader (program shader : GLuint)
  | glLinkProgram (program : GLuint)
  | glDetachShader (program shader : GLuint)
  | glGetProgramiv (program : GLuint) (pname : GLenum) (value : Int)
  | glGetProgramInfoLog (program : GLuint) (bufSize : Nat)
  | glDeleteShader (shader : GLuint)
  | glDeleteProgram (program : GLuint)
  deriving DecidableEq, Repr

/-- The rendering context during a call: the driver state and the driver calls
made so far, oldest first. -/
structure Context (σ : Type) where
  state : σ
  calls : List GLCall

variable {σ : Type}

def glCreateShader (d : Driver σ) (type : GLenum) (gl : Context σ) : GLuint × Context σ :=
  ((d.createShader type gl.state).1,
   ⟨(d.createShader type gl.state).2,
    gl.calls ++ [GLCall.glCreateShader type (d.createShader type gl.state).1]⟩)

def glShaderSource (d : Driver σ) (shader : GLuint) (segments : List Str) (gl : Context σ) : Context σ :=
  ⟨d.shaderSource shader segments gl.state, gl.calls ++ [GLCall.glShaderSource shader segments]⟩

def glCompileShader (d : Driver σ) (shader : GLuint) (gl : Context σ) : Context σ :=
  ⟨d.compileShader shader gl.state, gl.calls ++ [GLCall.glCompileShader shader]⟩

def glGetShaderCompileStatus (d : Driver σ) (shader : GLuint) (gl : Context σ) : Int × Context σ :=
  ((d.shaderCompileStatus shader gl.state).1,
   ⟨(d.shaderCompileStatus shader gl.state).2,
    gl.calls ++ [GLCall.glGetShaderiv shader GL_COMPILE_STATUS
      (d.shaderCompileStatus shader gl.state).1]⟩)

def glGetShaderInfoLogLength (d : Driver σ) (shader : GLuint) (gl : Context σ) : Nat × Context σ :=
  ((d.shaderInfoLogLength shader gl.state).1,
   ⟨(d.shaderInfoLogLength shader gl.state).2,
    gl.calls ++ [GLCall.glGetShaderiv shader GL_INFO_LOG_LENGTH
      (d.shaderInfoLogLength shader gl.state).1]⟩)

def glGetShaderInfoLog (d : Driver σ) (shader : GLuint) (bufSize : Nat) (gl : Context σ) : Context σ :=
  ⟨(d.shaderInfoLog shader bufSize gl.state).2,
   gl.calls ++ [GLCall.glGetShaderInfoLog shader bufSize]⟩

def glCreateProgram (d : Driver σ) (gl : Context σ) : GLuint × Context σ :=
  ((d.createProgram gl.state).1,
   ⟨(d.createProgram gl.state).2, gl.calls ++ [GLCall.glCreateProgram (d.createProgram gl.state).1]⟩)

def glAttachShader (d : Driver σ) (program shader : GLuint) (gl : Context σ) : Context σ :=
  ⟨d.attachShader program shader gl.state, gl.calls ++ [GLCall.glAttachShader program shader]⟩

def glLinkProgram (d : Driver σ) (program : GLuint) (gl : Context σ) : Context σ :=
  ⟨d.linkProgram program gl.state, gl.calls ++ [GLCall.glLinkProgram program]⟩

def glDetachShader (d : Driver σ) (program shader : GLuint) (gl : Context σ) : Context σ :=
  ⟨d.detachShader program shader gl.state, gl.calls ++ [GLCall.glDetachShader program shader]⟩

def glGetProgramLinkStatus (d : Driver σ) (program : GLuint) (gl : Context σ) : Int × Context σ :=
  ((d.programLinkStatus program gl.state).1,
   ⟨(d.programLinkStatus program gl.state).2,
    gl.calls ++ [GLCall.glGetProgramiv program GL_LINK_STATUS
      (d.programLinkStatus program gl.state).1]⟩)

def glGetProgramInfoLogLength (d : Driver σ) (program : GLuint) (gl : Context σ) : Nat × Context σ :=
  ((d.programInfoLogLength program gl.state).1,
   ⟨(d.programInfoLogLength program gl.state).2,
    gl.calls ++ [GLCall.glGetProgramiv program GL_INFO_LOG_LENGTH
      (d.programInfoLogLength program gl.state).1]⟩)

def glGetProgramInfoLog (d : Driver σ) (program : GLuint) (bufSize : Nat) (gl : Context σ) : Context σ :=
  ⟨(d.programInfoLog program bufSize gl.state).2,
   gl.calls ++ [GLCall.glGetProgramInfoLog program bufSize]⟩

def glDeleteShader (d : Driver σ) (shader : GLuint) (gl : Context σ) : Context σ :=
  ⟨d.deleteShader shader gl.state, gl.calls ++ [GLCall.glDeleteShader shader]⟩

def glDeleteProgram (d : Driver σ) (program : GLuint) (gl : Context σ) : Context σ :=
  ⟨d.deleteProgram program gl.state, gl.calls ++ [GLCall.glDeleteProgram program]⟩

/-! ## Shader.cpp -/

def InvalidHandle : GLuint := 0

/-- An entry of the table of available shader types. -/
structure ShaderType where
  name : Str
  define : Str
  type : GLenum

def ShaderTypeCount : Nat := 3

def ShaderTypes : List ShaderType :=
  [ ⟨"vertex shader".toList, "VERTEX_SHADER".toList, GL_VERTEX_SHADER⟩,
    ⟨"geometry shader".toList, "GEOMETRY_SHADER".toList, GL_GEOMETRY_SHADER⟩,
    ⟨"fragment shader".toList, "FRAGMENT_SHADER".toList, GL_FRAGMENT_SHADER⟩ ]

/-- The Shader object: its only field is the program handle. -/
structure Shader where
  m_handle : GLuint
  deriving DecidableEq, Repr

/-- Shader::IsValid. -/
def Shader.IsValid (self : Shader) : Bool := self.m_handle != InvalidHandle

/-- Shader::DestroyHandle: release the program handle. -/
def Shader.DestroyHandle (d : Driver σ) (self : Shader) (gl : Context σ) : Shader × Context σ :=
  if self.m_handle ≠ InvalidHandle then
    (⟨InvalidHandle⟩, glDeleteProgram d self.m_handle gl)
  else
    (self, gl)

/-- How a call of Compile ends. -/
inductive Outcome where
  | aborted
  | threw
  | returned (value : Bool)
  deriving DecidableEq, Repr

/-- Result of a precondition check. -/
inductive Check where
  | passed
  | aborted
  deriving DecidableEq, Repr

/-- Modelled from the spec: the VERIFY macro of the engine's debug header, which
is not among the sources.  A violated precondition is a programmer error that
aborts instead of returning an error value. -/
def VERIFY (expression : Bool) : Check :=
  if expression then Check.passed else Check.aborted

/-- Modelled from the spec: the SCOPE_GUARD_BEGIN / SCOPE_GUARD_END macros, which
are not among the sources: the guarded block runs on every exit from the
enclosing scope after the guard is set up.  This is the block of lines 95-102,
which deletes every entry of the shaderObjects array. -/
def scopeGuardDeleteShaders (d : Driver σ) : List GLuint → Context σ → Context σ
  | [], gl => gl
  | shaderObject :: rest, gl => scopeGuardDeleteShaders d rest (glDeleteShader d shaderObject gl)

/-- Modelled from the spec: the SCOPE_GUARD_IF macro, which is not among the
sources: on exit from the scope the condition is evaluated and, when it holds,
the statement runs.  This is the guard of line 192,
`SCOPE_GUARD_IF(!initialized, this->DestroyHandle())`. -/
def scopeGuardDestroyHandle (d : Driver σ) (initialized : Bool) (self : Shader) (gl : Context σ) :
    Shader × Context σ :=
  if !initialized then self.DestroyHandle d gl else (self, gl)

/-- The preprocessor define line synthesised for a stage (lines 139-141). -/
def shaderDefineOf (shaderType : ShaderType) : Str :=
  "#define ".toList ++ shaderType.define ++ "\n".toList

/-- The local variables that the compile loop of lines 119-182 updates. -/
structure CompileLocals (σ : Type) where
  shaderObjects : List GLuint
  shaderObjectsFound : Bool
  gl : Context σ

/-- One iteration of the loop of lines 119-182 for table entry `i`.  The first
component is true when the iteration executes `return false`. -/
def compileShaderObject (d : Driver σ) (shaderVersion shaderCode : Str)
    (shaderType : ShaderType) (i : Nat) (l : CompileLocals σ) : Bool × CompileLocals σ :=
  if find shaderCode shaderType.define 0 ≠ npos then
    let created := glCreateShader d shaderType.type l.gl
    let shaderObject := created.1
    let shaderObjects := l.shaderObjects.set i shaderObject
    if shaderObject = InvalidHandle then
      (true, ⟨shaderObjects, true, created.2⟩)
    else
      let shaderDefine := shaderDefineOf shaderType
      let shaderCodeSegments := [c_str shaderVersion, c_str shaderDefine, c_str shaderCode]
      let gl1 := glShaderSource d shaderObject shaderCodeSegments created.2
      let gl2 := glCompileShader d shaderObject gl1
      let status := glGetShaderCompileStatus d shaderObject gl2
      if status.1 = GL_FALSE then
        let errorLength := glGetShaderInfoLogLength d shaderObject status.2
        if errorLength.1 ≠ 0 then
          (true, ⟨shaderObjects, true, glGetShaderInfoLog d shaderObject errorLength.1 errorLength.2⟩)
        else
          (true, ⟨shaderObjects, true, errorLength.2⟩)
      else
        (false, ⟨shaderObjects, true, status.2⟩)
  else
    (false, l)

/-- The loop of lines 119-182 over the remaining table entries, `i` being the
index of the first of them. -/
def compileLoop (d : Driver σ) (shaderVersion shaderCode : Str) :
    List ShaderType → Nat → CompileLocals σ → Bool × CompileLocals σ
  | [], _, l => (false, l)
  | shaderType :: rest, i, l =>
    if (compileShaderObject d shaderVersion shaderCode shaderType i l).1 then
      (true, (compileShaderObject d shaderVersion shaderCode shaderType i l).2)
    else
      compileLoop d shaderVersion shaderCode rest (i + 1)
        (compileShaderObject d shaderVersion shaderCode shaderType i l).2

/-- The loop of lines 203-211: attach every non-zero shader object. -/
def attachLoop (d : Driver σ) (m_handle : GLuint) : List GLuint → Context σ → Context σ
  | [], gl => gl
  | shaderObject :: rest, gl =>
    if shaderObject ≠ InvalidHandle then
      attachLoop d m_handle rest (glAttachShader d m_handle shaderObject gl)
    else
      attachLoop d m_handle rest gl

/-- The loop of lines 217-225: detach every non-zero shader object. -/
def detachLoop (d : Driver σ) (m_handle : GLuint) : List GLuint → Context σ → Context σ
  | [], gl => gl
  | shaderObject :: rest, gl =>
    if shaderObject ≠ InvalidHandle then
      detachLoop d m_handle rest (glDetachShader d m_handle shaderObject gl)
    else
      detachLoop d m_handle rest gl

/-- What a call of Compile leaves behind: how it ended, the Shader object and
the rendering context. -/
structure CompileResult (σ : Type) where
  outcome : Outcome
  self : Shader
  gl : Context σ

/-- Lines 191-255 of Compile, from the creation of the program on; `l` holds the
locals after the compile loop. -/
def linkProgram (d : Driver σ) (l : CompileLocals σ) : CompileResult σ :=
  let created := glCreateProgram d l.gl
  let self : Shader := ⟨created.1⟩
  if self.m_handle = InvalidHandle then
    let destroyed := scopeGuardDestroyHandle d false self created.2
    ⟨Outcome.returned false, destroyed.1, scopeGuardDeleteShaders d l.shaderObjects destroyed.2⟩
  else
    let gl1 := attachLoop d self.m_handle l.shaderObjects created.2
    let gl2 := glLinkProgram d self.m_handle gl1
    let gl3 := detachLoop d self.m_handle l.shaderObjects gl2
    let linkStatus := glGetProgramLinkStatus d self.m_handle gl3
    if linkStatus.1 = GL_FALSE then
      let errorLength := glGetProgramInfoLogLength d self.m_handle linkStatus.2
      let gl4 :=
        if errorLength.1 ≠ 0 then glGetProgramInfoLog d self.m_handle errorLength.1 errorLength.2
        else errorLength.2
      let destroyed := scopeGuardDestroyHandle d false self gl4
      ⟨Outcome.returned false, destroyed.1,
       scopeGuardDeleteShaders d l.shaderObjects destroyed.2⟩
    else
      let destroyed := scopeGuardDestroyHandle d true self linkStatus.2
      ⟨Outcome.returned true, destroyed.1,
       scopeGuardDeleteShaders d l.shaderObjects destroyed.2⟩

/-- Shader::Compile, lines 75-255, called on the object `self` with the driver
in state `s`.  The calls of the result are the driver calls of this one call. -/
def Shader.Compile (d : Driver σ) (self : Shader) (shaderCode : Str) (s : σ) : CompileResult σ :=
  match VERIFY (self.m_handle == InvalidHandle) with
  | Check.aborted => ⟨Outcome.aborted, self, ⟨s, []⟩⟩
  | Check.passed =>
    if shaderCode.isEmpty then
      ⟨Outcome.returned false, self, ⟨s, []⟩⟩
    else
      let shaderObjects : List GLuint := List.replicate ShaderTypeCount 0
      match extractVersion shaderCode with
      | none => ⟨Outcome.threw, self, scopeGuardDeleteShaders d shaderObjects ⟨s, []⟩⟩
      | some (shaderVersion, shaderCode1) =>
        let compiled := compileLoop d shaderVersion shaderCode1 ShaderTypes 0
          ⟨shaderObjects, false, ⟨s, []⟩⟩
        if compiled.1 then
          ⟨Outcome.returned false, self,
           scopeGuardDeleteShaders d compiled.2.shaderObjects compiled.2.gl⟩
        else if compiled.2.shaderObjectsFound = false then
          ⟨Outcome.returned false, self,
           scopeGuardDeleteShaders d compiled.2.shaderObjects compiled.2.gl⟩
        else
          linkProgram d compiled.2

/-! ## Drivers used for concrete evaluation -/

/-- A driver whose state is the number of objects created so far: every create
call returns the next fresh name, and compile and link statuses are the given
values. -/
def scriptedDriver (compileStatus linkStatus : Int) (logLength : Nat) : Driver Nat where
  createShader := fun _ n => (n + 1, n + 1)
  shaderSource := fun _ _ n => n
  compileShader := fun _ n => n
  shaderCompileStatus := fun _ n => (compileStatus, n)
  shaderInfoLogLength := fun _ n => (logLength, n)
  shaderInfoLog := fun _ _ n => ([], n)
  createProgram := fun n => (n + 1, n + 1)
  attachShader := fun _ _ n => n
  linkProgram := fun _ n => n
  detachShader := fun _ _ n => n
  programLinkStatus := fun _ n => (linkStatus, n)
  programInfoLogLength := fun _ n => (logLength, n)
  programInfoLog := fun _ _ n => ([], n)
  deleteShader := fun _ n => n
  deleteProgram := fun _ n => n

/-- A driver on which everything succeeds. -/
def okDriver : Driver Nat := scriptedDriver 1 1 0

/-! ## Call sequences -/

/-- The four driver calls of a stage that is created with name `h` and whose
compile status is `status`. -/
def stageCalls (v c : Str) (t : ShaderType) (h : GLuint) (status : Int) : List GLCall :=
  [GLCall.glCreateShader t.type h,
   GLCall.glShaderSource h [c_str v, c_str (shaderDefineOf t), c_str c],
   GLCall.glCompileShader h, GLCall.glGetShaderiv h GL_COMPILE_STATUS status]

/-- The diagnostic queries after a failed compile or link: the log length and,
when it is non-zero, the log itself. -/
def shaderLogCalls (h : GLuint) (n : Nat) : List GLCall :=
  GLCall.glGetShaderiv h GL_INFO_LOG_LENGTH n :: (if n ≠ 0 then [GLCall.glGetShaderInfoLog h n] else [])

/-- The shapes the compile loop can take over the table entries `ts`, for
version segment `v` and body `c`: the driver calls it makes, the values it
leaves in the corresponding entries of shaderObjects, whether it executed
`return false`, and whether it found a stage marker. -/
inductive StageTrace (v c : Str) :
    List ShaderType → List GLCall → List GLuint → Bool → Bool → Prop
  | done : StageTrace v c [] [] [] false false
  | skip {t ts calls objs e f} :
      find c t.define 0 = npos → StageTrace v c ts calls objs e f →
      StageTrace v c (t :: ts) calls (0 :: objs) e f
  | createFailed {t ts} :
      find c t.define 0 ≠ npos →
      StageTrace v c (t :: ts) [GLCall.glCreateShader t.type 0]
        (0 :: List.replicate ts.length 0) true true
  | compileFailed {t ts h n} :
      find c t.define 0 ≠ npos → h ≠ 0 →
      StageTrace v c (t :: ts) (stageCalls v c t h 0 ++ shaderLogCalls h n)
        (h :: List.replicate ts.length 0) true true
  | compiled {t ts h status calls objs e f} :
      find c t.define 0 ≠ npos → h ≠ 0 → status ≠ 0 → StageTrace v c ts calls objs e f →
      StageTrace v c (t :: ts) (stageCalls v c t h status ++ calls) (h :: objs) e true

/-- The driver calls of lines 202-229 for program `p`: attach each non-zero
shader object, link, detach each of them, query the link status. -/
def linkCalls (p : GLuint) (objs : List GLuint) (status : Int) : List GLCall :=
  (objs.filter (fun h => h ≠ 0)).map (GLCall.glAttachShader p)
    ++ GLCall.glLinkProgram p
    :: ((objs.filter (fun h => h ≠ 0)).map (GLCall.glDetachShader p)
    ++ [GLCall.glGetProgramiv p GL_LINK_STATUS status])

/-- The diagnostic queries after a failed link. -/
def programLogCalls (p : GLuint) (n : Nat) : List GLCall :=
  GLCall.glGetProgramiv p GL_INFO_LOG_LENGTH n
    :: (if n ≠ 0 then [GLCall.glGetProgramInfoLog p n] else [])

/-- The shapes a call of Compile on an invalid instance with non-empty source
can take, for version segment `v` and body `c`: how it ends, the Shader object
it leaves, and its driver calls. -/
inductive CompileShape (v c : Str) : Outcome → Shader → List GLCall → Prop
  | stageFailed {calls objs f} :
      StageTrace v c ShaderTypes calls objs true f →
      CompileShape v c (Outcome.returned false) ⟨0⟩ (calls ++ objs.map GLCall.glDeleteShader)
  | noStages {calls objs} :
      StageTrace v c ShaderTypes calls objs false false →
      CompileShape v c (Outcome.returned false) ⟨0⟩ (calls ++ objs.map GLCall.glDeleteShader)
  | programFailed {calls objs} :
      StageTrace v c ShaderTypes calls objs false true →
      CompileShape v c (Outcome.returned false) ⟨0⟩
        (calls ++ GLCall.glCreateProgram 0 :: objs.map GLCall.glDeleteShader)
  | linkFailed {calls objs p n} :
      StageTrace v c ShaderTypes calls objs false true → p ≠ 0 →
      CompileShape v c (Outcome.returned false) ⟨0⟩
        (calls ++ GLCall.glCreateProgram p :: (linkCalls p objs 0
          ++ (programLogCalls p n ++ GLCall.glDeleteProgram p :: objs.map GLCall.glDeleteShader)))
  | linked {calls objs p status} :
      StageTrace v c ShaderTypes calls objs false true → p ≠ 0 → status ≠ 0 →
      CompileShape v c (Outcome.returned true) ⟨p⟩
        (calls ++ GLCall.glCreateProgram p :: (linkCalls p objs status
          ++ objs.map GLCall.glDeleteShader))

/-- Calls that belong to the per-stage compile phase. -/
def GLCall.isStageCall : GLCall → Bool
  | GLCall.glCreateShader _ _ => true
  | GLCall.glShaderSource _ _ => true
  | GLCall.glCompileShader _ => true
  | GLCall.glGetShaderiv _ _ _ => true
  | GLCall.glGetShaderInfoLog _ _ => true
  | _ => false

/-- The stage objects created in a call sequence, oldest first: the requested
type and the name returned by the driver. -/
def createdShaders : List GLCall → List (GLenum × GLuint)
  | [] => []
  | GLCall.glCreateShader type result :: rest => (type, result) :: createdShaders rest
  | _ :: rest => createdShaders rest

/-- Whether the body `c` requests the stage `t`: the test of line 125. -/
def stageRequested (c : Str) (t : ShaderType) : Bool := find c t.define 0 != npos

/-- The types of the stages that the body `c` requests, in table order. -/
def requestedTypes (c : Str) (ts : List ShaderType) : List GLenum :=
  (ts.filter (stageRequested c)).map ShaderType.type

/-- Calls that belong to the program phase: creation, attach, link, detach,
program queries and program deletion. -/
def GLCall.isProgramCall : GLCall → Bool
  | GLCall.glCreateProgram _ => true
  | GLCall.glAttachShader _ _ => true
  | GLCall.glLinkProgram _ => true
  | GLCall.glDetachShader _ _ => true
  | GLCall.glGetProgramiv _ _ _ => true
  | GLCall.glGetProgramInfoLog _ _ => true
  | GLCall.glDeleteProgram _ => true
  | _ => false

/-- The version segment that Compile passes to every stage: the first component
of the version extraction. -/
def shaderVersionOf (shaderCode : Str) : Str :=
  ((extractVersion shaderCode).getD ([], shaderCode)).1

/-- The body that Compile searches for stage markers and passes to every stage:
the second component of the version extraction. -/
def shaderBodyOf (shaderCode : Str) : Str :=
  ((extractVersion shaderCode).getD ([], shaderCode)).2

/-- The calls of the link step proper: attach, link and detach. -/
def GLCall.isLinkStepCall : GLCall → Bool
  | GLCall.glAttachShader _ _ => true
  | GLCall.glLinkProgram _ => true
  | GLCall.glDetachShader _ _ => true
  | _ => false

/-- A scripted driver on which every compile fails, with a 5-character log. -/
def compileFailDriver : Driver Nat := scriptedDriver 0 1 5

/-- A two-stage source with a leading version directive. -/
def twoStageSource : Str := "#version 330\nVERTEX_SHADER FRAGMENT_SHADER".toList

/-- A fragment-stage source whose version directive follows a comment line. -/
def commentedSource : Str :=
  "// fragment stage\n#version 330\n#ifdef FRAGMENT_SHADER\nvoid main();\n#endif\n".toList

/-- A source whose version directive has no line terminator and does not start
the text. -/
def unterminatedSource : Str := "VERTEX_SHADER #version 330".toList

/-! # Theorems -/

theorem set_append_cons (pre : List GLuint) (x h : GLuint) (rest : List GLuint) :
    (pre ++ x :: rest).set pre.length h = pre ++ h :: rest := by
  induction pre with
  | nil => rfl
  | cons a pre ih => simp [List.set, ih]

/-- The possible effects of one iteration of the compile loop. -/
theorem compileShaderObject_spec (d : Driver σ) (v c : Str) (t : ShaderType) (i : Nat)
    (l : CompileLocals σ) :
    (find c t.define 0 = npos ∧ compileShaderObject d v c t i l = (false, l)) ∨
    (find c t.define 0 ≠ npos ∧ ∃ h,
      (compileShaderObject d v c t i l).2.shaderObjects = l.shaderObjects.set i h ∧
      (compileShaderObject d v c t i l).2.shaderObjectsFound = true ∧
      ((h = 0 ∧ (compileShaderObject d v c t i l).1 = true ∧
          (compileShaderObject d v c t i l).2.gl.calls
            = l.gl.calls ++ [GLCall.glCreateShader t.type 0]) ∨
       (h ≠ 0 ∧ ∃ n, (compileShaderObject d v c t i l).1 = true ∧
          (compileShaderObject d v c t i l).2.gl.calls
            = l.gl.calls ++ (stageCalls v c t h 0 ++ shaderLogCalls h n)) ∨
       (h ≠ 0 ∧ ∃ status, status ≠ 0 ∧ (compileShaderObject d v c t i l).1 = false ∧
          (compileShaderObject d v c t i l).2.gl.calls
            = l.gl.calls ++ stageCalls v c t h status))) := by
  by_cases hreq : find c t.define 0 = npos
  · left
    exact ⟨hreq, by simp [compileShaderObject, hreq]⟩
  · right
    refine ⟨hreq, (d.createShader t.type l.gl.state).1, ?_⟩
    simp only [compileShaderObject, glCreateShader, glShaderSource, glCompileShader,
      glGetShaderCompileStatus, glGetShaderInfoLogLength, glGetShaderInfoLog, InvalidHandle,
      GL_FALSE, stageCalls, shaderLogCalls]
    split_ifs with h1 h2 h3 h4 <;> simp_all

/-- The compile loop follows one of the shapes of StageTrace. -/
theorem compileLoop_trace (d : Driver σ) (v c : Str) :
    ∀ (ts : List ShaderType) (pre : List GLuint) (l : CompileLocals σ),
      l.shaderObjects = pre ++ List.replicate ts.length 0 →
      ∃ calls objs f,
        StageTrace v c ts calls objs (compileLoop d v c ts pre.length l).1 f ∧
        (compileLoop d v c ts pre.length l).2.shaderObjects = pre ++ objs ∧
        (compileLoop d v c ts pre.length l).2.shaderObjectsFound = (l.shaderObjectsFound || f) ∧
        (compileLoop d v c ts pre.length l).2.gl.calls = l.gl.calls ++ calls := by
  intro ts
  induction ts with
  | nil =>
    intro pre l hl
    exact ⟨[], [], false, StageTrace.done, by simpa using hl, by simp [compileLoop],
      by simp [compileLoop]⟩
  | cons t ts ih =>
    intro pre l hl
    have hset : ∀ h, l.shaderObjects.set pre.length h = (pre ++ [h]) ++ List.replicate ts.length 0 := by
      intro h
      rw [hl, List.length_cons, List.replicate_succ, set_append_cons]
      simp
    have hlen : ∀ h : GLuint, (pre ++ [h]).length = pre.length + 1 := by simp
    rcases compileShaderObject_spec d v c t pre.length l with
      ⟨hreq, hstep⟩ | ⟨hreq, h, hobj, hfnd, hcase⟩
    · have hl1 : l.shaderObjects = (pre ++ [0]) ++ List.replicate ts.length 0 := by
        rw [hl, List.length_cons, List.replicate_succ]; simp
      obtain ⟨calls, objs, f, htr, hobjs, hfound, hcalls⟩ := ih (pre ++ [0]) l hl1
      rw [hlen] at htr hobjs hfound hcalls
      refine ⟨calls, 0 :: objs, f, ?_, ?_, ?_, ?_⟩
      · simpa [compileLoop, hstep] using StageTrace.skip hreq htr
      · simpa [compileLoop, hstep] using hobjs
      · simpa [compileLoop, hstep] using hfound
      · simpa [compileLoop, hstep] using hcalls
    · rcases hcase with ⟨h0, hexit, hcalls⟩ | ⟨h0, n, hexit, hcalls⟩ | ⟨h0, status, hst, hexit, hcalls⟩
      · subst h0
        refine ⟨[GLCall.glCreateShader t.type 0], 0 :: List.replicate ts.length 0, true,
          ?_, ?_, ?_, ?_⟩
        · simpa [compileLoop, hexit] using @StageTrace.createFailed v c t ts hreq
        · simp [compileLoop, hexit, hobj, hset]
        · simp [compileLoop, hexit, hfnd]
        · simpa [compileLoop, hexit] using hcalls
      · refine ⟨stageCalls v c t h 0 ++ shaderLogCalls h n, h :: List.replicate ts.length 0, true,
          ?_, ?_, ?_, ?_⟩
        · simpa [compileLoop, hexit] using
            @StageTrace.compileFailed v c t ts h n hreq h0
        · simp [compileLoop, hexit, hobj, hset]
        · simp [compileLoop, hexit, hfnd]
        · simpa [compileLoop, hexit] using hcalls
      · obtain ⟨calls, objs, f, htr, hobjs, hfound, hcalls1⟩ :=
          ih (pre ++ [h]) (compileShaderObject d v c t pre.length l).2 (by rw [hobj, hset])
        rw [hlen] at htr hobjs hfound hcalls1
        refine ⟨stageCalls v c t h status ++ calls, h :: objs, true, ?_, ?_, ?_, ?_⟩
        · simpa [compileLoop, hexit] using StageTrace.compiled hreq h0 hst htr
        · simpa [compileLoop, hexit] using hobjs
        · simpa [compileLoop, hexit, hfnd] using hfound
        · simp [compileLoop, hexit, hcalls1, hcalls]

theorem attachLoop_calls (d : Driver σ) (p : GLuint) (objs : List GLuint) (gl : Context σ) :
    (attachLoop d p objs gl).calls
      = gl.calls ++ (objs.filter (fun h => h ≠ 0)).map (GLCall.glAttachShader p) := by
  induction objs generalizing gl with
  | nil => simp [attachLoop]
  | cons h objs ih =>
    by_cases h0 : h = 0
    · simp [attachLoop, InvalidHandle, h0, ih]
    · simp [attachLoop, InvalidHandle, h0, ih, glAttachShader]

theorem detachLoop_calls (d : Driver σ) (p : GLuint) (objs : List GLuint) (gl : Context σ) :
    (detachLoop d p objs gl).calls
      = gl.calls ++ (objs.filter (fun h => h ≠ 0)).map (GLCall.glDetachShader p) := by
  induction objs generalizing gl with
  | nil => simp [detachLoop]
  | cons h objs ih =>
    by_cases h0 : h = 0
    · simp [detachLoop, InvalidHandle, h0, ih]
    · simp [detachLoop, InvalidHandle, h0, ih, glDetachShader]

theorem scopeGuardDeleteShaders_calls (d : Driver σ) (objs : List GLuint) (gl : Context σ) :
    (scopeGuardDeleteShaders d objs gl).calls = gl.calls ++ objs.map GLCall.glDeleteShader := by
  induction objs generalizing gl with
  | nil => simp [scopeGuardDeleteShaders]
  | cons h objs ih => simp [scopeGuardDeleteShaders, ih, glDeleteShader]

theorem findFrom_le (needle : Str) (rest : Str) (i : Nat) :
    findFrom needle rest i = npos ∨ findFrom needle rest i ≤ i + rest.length := by
  induction rest generalizing i with
  | nil => simp only [findFrom]; split_ifs <;> simp
  | cons x rest ih =>
    simp only [findFrom]
    split_ifs
    · right; simp
    · rcases ih (i + 1) with h | h
      · left; exact h
      · right; simp only [List.length_cons]; omega

theorem find_le (s needle : Str) : find s needle 0 = npos ∨ find s needle 0 ≤ s.length := by
  have h := findFrom_le needle s 0
  simpa [find] using h

/-- Neither substr nor erase throws in the version extraction. -/
theorem extractVersion_isSome (shaderCode : Str) :
    ∃ v c, extractVersion shaderCode = some (v, c) := by
  rcases find_le shaderCode versionToken with h | h
  · exact ⟨[], shaderCode, by simp [extractVersion, h]⟩
  · by_cases hn : find shaderCode versionToken 0 = npos
    · exact ⟨[], shaderCode, by simp [extractVersion, hn]⟩
    · have h1 : ¬ (find shaderCode versionToken 0 > shaderCode.length) := by omega
      simp [extractVersion, hn, substr, erase, h1]

theorem glCreateProgram_calls (d : Driver σ) (gl : Context σ) :
    (glCreateProgram d gl).2.calls
      = gl.calls ++ [GLCall.glCreateProgram (glCreateProgram d gl).1] := rfl

theorem glLinkProgram_calls (d : Driver σ) (p : GLuint) (gl : Context σ) :
    (glLinkProgram d p gl).calls = gl.calls ++ [GLCall.glLinkProgram p] := rfl

theorem glGetProgramLinkStatus_calls (d : Driver σ) (p : GLuint) (gl : Context σ) :
    (glGetProgramLinkStatus d p gl).2.calls
      = gl.calls ++ [GLCall.glGetProgramiv p GL_LINK_STATUS (glGetProgramLinkStatus d p gl).1] :=
  rfl

theorem glGetProgramInfoLogLength_calls (d : Driver σ) (p : GLuint) (gl : Context σ) :
    (glGetProgramInfoLogLength d p gl).2.calls
      = gl.calls
        ++ [GLCall.glGetProgramiv p GL_INFO_LOG_LENGTH (glGetProgramInfoLogLength d p gl).1] :=
  rfl

theorem glGetProgramInfoLog_calls (d : Driver σ) (p : GLuint) (n : Nat) (gl : Context σ) :
    (glGetProgramInfoLog d p n gl).calls = gl.calls ++ [GLCall.glGetProgramInfoLog p n] := rfl

theorem glDeleteProgram_calls (d : Driver σ) (p : GLuint) (gl : Context σ) :
    (glDeleteProgram d p gl).calls = gl.calls ++ [GLCall.glDeleteProgram p] := rfl

theorem linkProgram_shape (d : Driver σ) (v c : Str) (l : CompileLocals σ) (calls : List GLCall)
    (htr : StageTrace v c ShaderTypes calls l.shaderObjects false true)
    (hcalls : l.gl.calls = calls) :
    CompileShape v c (linkProgram d l).outcome (linkProgram d l).self (linkProgram d l).gl.calls := by
  have e0 := glCreateProgram_calls d l.gl
  rw [hcalls] at e0
  unfold linkProgram
  generalize glCreateProgram d l.gl = created at e0 ⊢
  obtain ⟨p, gl0⟩ := created
  simp only at e0 ⊢
  by_cases hp : p = 0
  · subst hp
    have h := CompileShape.programFailed htr
    simpa [scopeGuardDestroyHandle, Shader.DestroyHandle, InvalidHandle,
      scopeGuardDeleteShaders_calls, e0] using h
  · have e1 : (glGetProgramLinkStatus d p (detachLoop d p l.shaderObjects
          (glLinkProgram d p (attachLoop d p l.shaderObjects gl0)))).2.calls
        = calls ++ GLCall.glCreateProgram p :: linkCalls p l.shaderObjects
            (glGetProgramLinkStatus d p (detachLoop d p l.shaderObjects
              (glLinkProgram d p (attachLoop d p l.shaderObjects gl0)))).1 := by
      simp [glGetProgramLinkStatus_calls, detachLoop_calls, glLinkProgram_calls,
        attachLoop_calls, e0, linkCalls]
    simp only [InvalidHandle, hp, if_false]
    generalize glGetProgramLinkStatus d p (detachLoop d p l.shaderObjects
      (glLinkProgram d p (attachLoop d p l.shaderObjects gl0))) = linked at e1 ⊢
    obtain ⟨status, gl1⟩ := linked
    simp only at e1 ⊢
    by_cases hs : status = 0
    · subst hs
      have h := CompileShape.linkFailed (n := (glGetProgramInfoLogLength d p gl1).1) htr hp
      have e2 := glGetProgramInfoLogLength_calls d p gl1
      generalize glGetProgramInfoLogLength d p gl1 = len at e2 h ⊢
      obtain ⟨n, gl2⟩ := len
      simp only at e2 h ⊢
      by_cases hn : n = 0
      · subst hn
        simpa [GL_FALSE, scopeGuardDestroyHandle, Shader.DestroyHandle, InvalidHandle, hp,
          scopeGuardDeleteShaders_calls, glDeleteProgram_calls, e2, e1, programLogCalls] using h
      · simpa [GL_FALSE, scopeGuardDestroyHandle, Shader.DestroyHandle, InvalidHandle, hp,
          scopeGuardDeleteShaders_calls, glDeleteProgram_calls, glGetProgramInfoLog_calls, e2, e1,
          programLogCalls, hn] using h
    · have h := CompileShape.linked htr hp hs
      simpa [GL_FALSE, hs, scopeGuardDestroyHandle, scopeGuardDeleteShaders_calls, e1] using h

/-- Every call of Compile on an invalid instance with non-empty source takes
one of the shapes of CompileShape, with the version segment and body computed
by the version extraction. -/
theorem Compile_shape (d : Driver σ) (shaderCode : Str) (s : σ) (hne : shaderCode ≠ []) :
    ∃ v c, extractVersion shaderCode = some (v, c) ∧
      CompileShape v c (Shader.Compile d ⟨0⟩ shaderCode s).outcome
        (Shader.Compile d ⟨0⟩ shaderCode s).self (Shader.Compile d ⟨0⟩ shaderCode s).gl.calls := by
  obtain ⟨v, c, hvc⟩ := extractVersion_isSome shaderCode
  refine ⟨v, c, hvc, ?_⟩
  obtain ⟨calls, objs, f, htr, hobjs, hfound, hcalls⟩ :=
    compileLoop_trace d v c ShaderTypes [] ⟨List.replicate ShaderTypeCount 0, false, ⟨s, []⟩⟩
      (by simp [ShaderTypes, ShaderTypeCount])
  simp only [List.length_nil, List.nil_append, Bool.false_or] at htr hobjs hfound hcalls
  have hempty : shaderCode.isEmpty = false := by
    cases shaderCode with
    | nil => exact absurd rfl hne
    | cons x xs => rfl
  simp only [Shader.Compile, VERIFY, InvalidHandle, beq_self_eq_true, if_true, hempty, hvc]
  by_cases hexit : (compileLoop d v c ShaderTypes 0
      ⟨List.replicate ShaderTypeCount 0, false, ⟨s, []⟩⟩).1 = true
  · rw [hexit] at htr
    have h := CompileShape.stageFailed htr
    simpa [hexit, scopeGuardDeleteShaders_calls, hobjs, hcalls] using h
  · have hexit1 : (compileLoop d v c ShaderTypes 0
        ⟨List.replicate ShaderTypeCount 0, false, ⟨s, []⟩⟩).1 = false := by
      simpa using hexit
    rw [hexit1] at htr
    cases f with
    | false =>
      have h := CompileShape.noStages htr
      simpa [hexit1, hfound, scopeGuardDeleteShaders_calls, hobjs, hcalls] using h
    | true =>
      rw [← hobjs] at htr
      have h := linkProgram_shape d v c _ calls htr hcalls
      simpa [hexit1, hfound] using h

theorem createdShaders_append (a b : List GLCall) :
    createdShaders (a ++ b) = createdShaders a ++ createdShaders b := by
  induction a with
  | nil => rfl
  | cons x a ih => cases x <;> simp [createdShaders, ih]

theorem createdShaders_stageCalls (v c : Str) (t : ShaderType) (h : GLuint) (status : Int) :
    createdShaders (stageCalls v c t h status) = [(t.type, h)] := rfl

theorem createdShaders_shaderLogCalls (h : GLuint) (n : Nat) :
    createdShaders (shaderLogCalls h n) = [] := by
  unfold shaderLogCalls
  split_ifs <;> rfl

theorem StageTrace.isStageCall {v c : Str} {ts calls objs e f}
    (htr : StageTrace v c ts calls objs e f) : ∀ x ∈ calls, x.isStageCall = true := by
  induction htr with
  | done => simp
  | skip _ _ ih => exact ih
  | createFailed _ => simp [GLCall.isStageCall]
  | compileFailed _ _ =>
    intro x hx
    simp only [stageCalls, shaderLogCalls, List.mem_append, List.mem_cons] at hx
    rcases hx with (hx | hx | hx | hx | hx) | hx | hx
    any_goals (subst hx; rfl)
    · simp at hx
    · split_ifs at hx
      · simp at hx; subst hx; rfl
      · simp at hx
  | compiled _ _ _ _ ih =>
    intro x hx
    simp only [stageCalls, List.mem_append, List.mem_cons] at hx
    rcases hx with (hx | hx | hx | hx | hx) | hx
    any_goals (subst hx; rfl)
    · simp at hx
    · exact ih x hx

theorem StageTrace.length_objs {v c : Str} {ts calls objs e f}
    (htr : StageTrace v c ts calls objs e f) : objs.length = ts.length := by
  induction htr with
  | done => rfl
  | skip _ _ ih => simp [ih]
  | createFailed _ => simp
  | compileFailed _ _ => simp
  | compiled _ _ _ _ ih => simp [ih]

/-- A stage object that was created with a non-zero name is stored in
shaderObjects. -/
theorem StageTrace.created_mem {v c : Str} {ts calls objs e f}
    (htr : StageTrace v c ts calls objs e f) :
    ∀ ty h, (ty, h) ∈ createdShaders calls → h ≠ 0 → h ∈ objs := by
  induction htr with
  | done => simp [createdShaders]
  | skip _ _ ih =>
    intro ty h hm h0
    exact List.mem_cons_of_mem _ (ih ty h hm h0)
  | createFailed _ =>
    intro ty h hm h0
    simp [createdShaders] at hm
    exact absurd hm.2 h0
  | compileFailed _ _ =>
    intro ty h hm h0
    rw [createdShaders_append, createdShaders_stageCalls, createdShaders_shaderLogCalls] at hm
    simp at hm
    simp [hm.2]
  | compiled _ _ _ _ ih =>
    intro ty h hm h0
    rw [createdShaders_append, createdShaders_stageCalls] at hm
    simp at hm
    rcases hm with hm | hm
    · simp [hm.2]
    · exact List.mem_cons_of_mem _ (ih ty h hm h0)

/-- When the loop runs to its end, the created names are the non-zero entries
of shaderObjects, in order, and the created types are the requested ones. -/
theorem StageTrace.created_of_completed {v c : Str} {ts calls objs e f}
    (htr : StageTrace v c ts calls objs e f) (he : e = false) :
    (createdShaders calls).map Prod.snd = objs.filter (fun h => h ≠ 0) ∧
    (createdShaders calls).map Prod.fst = requestedTypes c ts := by
  induction htr with
  | done => simp [createdShaders, requestedTypes]
  | skip hreq _ ih =>
    have := ih he
    simp [this, requestedTypes, stageRequested, hreq]
  | createFailed _ => simp at he
  | compileFailed _ _ => simp at he
  | compiled hreq h0 _ _ ih =>
    have := ih he
    rw [createdShaders_append, createdShaders_stageCalls]
    simp [this, requestedTypes, stageRequested, hreq, h0]

/-- The created types always form a prefix of the requested types in table
order. -/
theorem StageTrace.created_types_initial {v c : Str} {ts calls objs e f}
    (htr : StageTrace v c ts calls objs e f) :
    (createdShaders calls).map Prod.fst <+: requestedTypes c ts := by
  induction htr with
  | done => simp [createdShaders, requestedTypes]
  | skip hreq _ ih => simpa [requestedTypes, stageRequested, hreq] using ih
  | createFailed hreq => simp [createdShaders, requestedTypes, stageRequested, hreq]
  | compileFailed hreq _ =>
    rw [createdShaders_append, createdShaders_stageCalls, createdShaders_shaderLogCalls]
    simp [requestedTypes, stageRequested, hreq]
  | compiled hreq _ _ _ ih =>
    rw [createdShaders_append, createdShaders_stageCalls]
    simpa [requestedTypes, stageRequested, hreq] using ih

/-- When no table entry is requested the loop makes no driver call. -/
theorem StageTrace.of_none_requested {v c : Str} {ts calls objs e f}
    (htr : StageTrace v c ts calls objs e f) (hnone : ∀ t ∈ ts, find c t.define 0 = npos) :
    calls = [] ∧ objs = List.replicate ts.length 0 ∧ e = false ∧ f = false := by
  induction htr with
  | done => simp
  | skip _ _ ih =>
    have := ih (fun t ht => hnone t (List.mem_cons_of_mem _ ht))
    simp [this, List.replicate_succ]
  | createFailed hreq => exact absurd (hnone _ (List.mem_cons_self _ _)) hreq
  | compileFailed hreq _ => exact absurd (hnone _ (List.mem_cons_self _ _)) hreq
  | compiled hreq _ _ _ _ => exact absurd (hnone _ (List.mem_cons_self _ _)) hreq

/-- When the loop found no marker it made no driver call. -/
theorem StageTrace.of_not_found {v c : Str} {ts calls objs e f}
    (htr : StageTrace v c ts calls objs e f) (hf : f = false) :
    calls = [] ∧ objs = List.replicate ts.length 0 ∧ e = false ∧
      ∀ t ∈ ts, find c t.define 0 = npos := by
  induction htr with
  | done => simp
  | skip hreq _ ih =>
    obtain ⟨h1, h2, h3, h4⟩ := ih hf
    refine ⟨h1, by simp [h2, List.replicate_succ], h3, ?_⟩
    intro t ht
    rcases List.mem_cons.1 ht with rfl | ht
    · exact hreq
    · exact h4 t ht
  | createFailed _ => simp at hf
  | compileFailed _ _ => simp at hf
  | compiled _ _ _ _ _ => simp at hf

/-! ## Claims about the outcome and the handle -/

theorem mem_linkCalls_createProgram (p q : GLuint) (objs : List GLuint) (status : Int) :
    GLCall.glCreateProgram q ∉ linkCalls p objs status := by
  simp [linkCalls]

theorem StageTrace.not_mem_of_not_stageCall {v c : Str} {ts calls objs e f}
    (htr : StageTrace v c ts calls objs e f) (x : GLCall) (hx : x.isStageCall = false) :
    x ∉ calls := by
  intro hm
  have := htr.isStageCall x hm
  rw [hx] at this
  exact Bool.noConfusion this

/-- C3: for every source text, driver and driver state, after Compile is called on
an instance whose handle is Invalid it returns a boolean; IsValid() is true
afterwards exactly when it returned success; on every failure return the handle
is Invalid as before the call; and on success the handle is the non-zero program
name that the driver's glCreateProgram returned and for which the link-status
query answered non-false. -/
theorem Compile_valid_iff_success (d : Driver σ) (shaderCode : Str) (s : σ) :
    (∃ b, (Shader.Compile d ⟨InvalidHandle⟩ shaderCode s).outcome = Outcome.returned b) ∧
    ((Shader.Compile d ⟨InvalidHandle⟩ shaderCode s).self.IsValid = true ↔
      (Shader.Compile d ⟨InvalidHandle⟩ shaderCode s).outcome = Outcome.returned true) ∧
    ((Shader.Compile d ⟨InvalidHandle⟩ shaderCode s).outcome = Outcome.returned false →
      (Shader.Compile d ⟨InvalidHandle⟩ shaderCode s).self = ⟨InvalidHandle⟩) ∧
    ((Shader.Compile d ⟨InvalidHandle⟩ shaderCode s).outcome = Outcome.returned true →
      (Shader.Compile d ⟨InvalidHandle⟩ shaderCode s).self.m_handle ≠ InvalidHandle ∧
      GLCall.glCreateProgram (Shader.Compile d ⟨InvalidHandle⟩ shaderCode s).self.m_handle
        ∈ (Shader.Compile d ⟨InvalidHandle⟩ shaderCode s).gl.calls ∧
      ∃ status, status ≠ GL_FALSE ∧
        GLCall.glGetProgramiv (Shader.Compile d ⟨InvalidHandle⟩ shaderCode s).self.m_handle
          GL_LINK_STATUS status ∈ (Shader.Compile d ⟨InvalidHandle⟩ shaderCode s).gl.calls) := by
  by_cases hne : shaderCode = []
  · subst hne
    simp [Shader.Compile, VERIFY, InvalidHandle, Shader.IsValid]
  · obtain ⟨v, c, -, hshape⟩ := Compile_shape d shaderCode s hne
    simp only [InvalidHandle] at *
    generalize Shader.Compile d ⟨0⟩ shaderCode s = r at hshape ⊢
    obtain ⟨outcome, self, gl⟩ := r
    obtain ⟨st, calls⟩ := gl
    simp only at hshape ⊢
    cases hshape with
    | stageFailed _ => simp [Shader.IsValid, InvalidHandle]
    | noStages _ => simp [Shader.IsValid, InvalidHandle]
    | programFailed _ => simp [Shader.IsValid, InvalidHandle]
    | linkFailed _ _ => simp [Shader.IsValid, InvalidHandle]
    | @linked calls0 objs p status _ hp hs =>
      refine ⟨⟨true, rfl⟩, by simp [Shader.IsValid, InvalidHandle, hp], by simp, ?_⟩
      intro _
      refine ⟨hp, by simp, status, hs, ?_⟩
      simp [linkCalls]

theorem append_eq_split_left {α : Type} {stage tail pre post : List α} {x : α}
    (hx : x ∉ tail) (h : stage ++ tail = pre ++ x :: post) :
    ∃ mid, stage = pre ++ x :: mid ∧ post = mid ++ tail := by
  rcases List.append_eq_append_iff.1 h with ⟨a, h1, h2⟩ | ⟨b, h1, h2⟩
  · exact absurd (by rw [h2]; simp) hx
  · cases b with
    | nil =>
      simp at h2
      exact absurd (by rw [← h2]; simp) hx
    | cons y b =>
      simp at h2
      obtain ⟨rfl, rfl⟩ := h2
      exact ⟨b, h1, rfl⟩

theorem append_eq_split_right {α : Type} {stage tail pre post : List α} {x : α}
    (hx : x ∉ stage) (h : stage ++ tail = pre ++ x :: post) :
    ∃ a, pre = stage ++ a ∧ tail = a ++ x :: post := by
  rcases List.append_eq_append_iff.1 h with ⟨a, h1, h2⟩ | ⟨b, h1, h2⟩
  · exact ⟨a, h1, h2⟩
  · cases b with
    | nil =>
      simp at h2 h1
      exact ⟨[], by simp [h1], by simp [h2]⟩
    | cons y b =>
      simp at h2
      obtain ⟨rfl, rfl⟩ := h2
      exact absurd (by rw [h1]; simp) hx

theorem linkCalls_isProgramCall (p : GLuint) (objs : List GLuint) (status : Int) :
    ∀ x ∈ linkCalls p objs status, x.isProgramCall = true := by
  intro x hx
  simp only [linkCalls, List.mem_append, List.mem_cons, List.mem_map, List.mem_singleton,
    List.not_mem_nil, or_false] at hx
  rcases hx with ⟨_, _, rfl⟩ | rfl | ⟨_, _, rfl⟩ | rfl <;> rfl

theorem programLogCalls_isProgramCall (p : GLuint) (n : Nat) :
    ∀ x ∈ programLogCalls p n, x.isProgramCall = true := by
  intro x hx
  unfold programLogCalls at hx
  split_ifs at hx
  · simp at hx
    rcases hx with rfl | rfl <;> rfl
  · simp at hx
    subst hx; rfl

/-- Every shape of Compile is the compile loop's calls, then program-phase
calls, then the deletion of every entry of shaderObjects. -/
theorem CompileShape.phases {v c : Str} {o : Outcome} {self : Shader} {calls : List GLCall}
    (hs : CompileShape v c o self calls) :
    ∃ stage objs e f program, StageTrace v c ShaderTypes stage objs e f ∧
      calls = stage ++ (program ++ objs.map GLCall.glDeleteShader) ∧
      (∀ x ∈ program, x.isProgramCall = true) ∧
      (e = true → program = []) := by
  cases hs with
  | @stageFailed stage objs f htr => exact ⟨stage, objs, true, f, [], htr, by simp, by simp, by simp⟩
  | @noStages stage objs htr => exact ⟨stage, objs, false, false, [], htr, by simp, by simp, by simp⟩
  | @programFailed stage objs htr =>
    exact ⟨stage, objs, false, true, [GLCall.glCreateProgram 0], htr, by simp,
      by simp [GLCall.isProgramCall], by simp⟩
  | @linkFailed stage objs p n htr hp =>
    refine ⟨stage, objs, false, true, GLCall.glCreateProgram p :: (linkCalls p objs 0
      ++ (programLogCalls p n ++ [GLCall.glDeleteProgram p])), htr, by simp, ?_, by simp⟩
    intro x hx
    simp only [List.mem_cons, List.mem_append, List.mem_singleton, List.not_mem_nil,
      or_false] at hx
    rcases hx with rfl | hx | hx | rfl
    · rfl
    · exact linkCalls_isProgramCall _ _ _ x hx
    · exact programLogCalls_isProgramCall _ _ x hx
    · rfl
  | @linked stage objs p status htr hp hs =>
    refine ⟨stage, objs, false, true, GLCall.glCreateProgram p :: linkCalls p objs status, htr,
      by simp, ?_, by simp⟩
    intro x hx
    simp only [List.mem_cons] at hx
    rcases hx with rfl | hx
    · rfl
    · exact linkCalls_isProgramCall _ _ _ x hx

theorem mem_createdShaders {calls : List GLCall} {ty : GLenum} {h : GLuint} :
    (ty, h) ∈ createdShaders calls ↔ GLCall.glCreateShader ty h ∈ calls := by
  induction calls with
  | nil => simp [createdShaders]
  | cons x calls ih => cases x <;> simp [createdShaders, ih]

/-- C4: in the driver call sequence of one Compile call on an invalid instance,
every glCreateShader call that returned a non-zero name is followed, later in the
same sequence, by a glDeleteShader call on that name, whatever the driver does
and however Compile ends; and when Compile returns failure, every
glCreateProgram call that returned a non-zero name is followed by a
glDeleteProgram call on that name. -/
theorem Compile_releases_handles (d : Driver σ) (shaderCode : Str) (s : σ) :
    (∀ pre post ty h,
      (Shader.Compile d ⟨InvalidHandle⟩ shaderCode s).gl.calls
          = pre ++ GLCall.glCreateShader ty h :: post →
      h ≠ InvalidHandle → GLCall.glDeleteShader h ∈ post) ∧
    ((Shader.Compile d ⟨InvalidHandle⟩ shaderCode s).outcome = Outcome.returned false →
      ∀ pre post p,
        (Shader.Compile d ⟨InvalidHandle⟩ shaderCode s).gl.calls
            = pre ++ GLCall.glCreateProgram p :: post →
        p ≠ InvalidHandle → GLCall.glDeleteProgram p ∈ post) := by
  by_cases hne : shaderCode = []
  · subst hne
    simp [Shader.Compile, VERIFY, InvalidHandle]
  · obtain ⟨v, c, -, hshape⟩ := Compile_shape d shaderCode s hne
    simp only [InvalidHandle] at *
    generalize Shader.Compile d ⟨0⟩ shaderCode s = r at hshape ⊢
    obtain ⟨outcome, self, gl⟩ := r
    obtain ⟨st, calls⟩ := gl
    simp only at hshape ⊢
    constructor
    · intro pre post ty h hcalls h0
      obtain ⟨stage, objs, e, f, program, htr, hc, hprog, -⟩ := hshape.phases
      rw [hc] at hcalls
      have hx : GLCall.glCreateShader ty h ∉ program ++ objs.map GLCall.glDeleteShader := by
        intro hm
        rcases List.mem_append.1 hm with hm | hm
        · have := hprog _ hm
          simp [GLCall.isProgramCall] at this
        · simp at hm
      obtain ⟨mid, hstage, hpost⟩ := append_eq_split_left hx hcalls
      have hmem : (ty, h) ∈ createdShaders stage := by
        rw [mem_createdShaders, hstage]; simp
      have := htr.created_mem ty h hmem h0
      rw [hpost]
      simp [this]
    · intro hout pre post p hcalls hp
      cases hshape with
      | @stageFailed stage objs f htr =>
        have : GLCall.glCreateProgram p ∈ stage ++ objs.map GLCall.glDeleteShader := by
          rw [hcalls]; simp
        rcases List.mem_append.1 this with hm | hm
        · exact absurd hm (htr.not_mem_of_not_stageCall _ rfl)
        · simp at hm
      | @noStages stage objs htr =>
        have : GLCall.glCreateProgram p ∈ stage ++ objs.map GLCall.glDeleteShader := by
          rw [hcalls]; simp
        rcases List.mem_append.1 this with hm | hm
        · exact absurd hm (htr.not_mem_of_not_stageCall _ rfl)
        · simp at hm
      | @programFailed stage objs htr =>
        obtain ⟨a, -, ha⟩ :=
          append_eq_split_right (htr.not_mem_of_not_stageCall (GLCall.glCreateProgram p) rfl) hcalls
        cases a with
        | nil =>
          simp at ha
          exact absurd ha.1.symm hp
        | cons y a =>
          simp at ha
          have : GLCall.glCreateProgram p ∈ objs.map GLCall.glDeleteShader := by
            rw [ha.2]; simp
          simp at this
      | @linkFailed stage objs q n htr hq =>
        obtain ⟨a, -, ha⟩ :=
          append_eq_split_right (htr.not_mem_of_not_stageCall (GLCall.glCreateProgram p) rfl) hcalls
        cases a with
        | nil =>
          simp at ha
          obtain ⟨rfl, rfl⟩ := ha
          simp
        | cons y a =>
          simp at ha
          have : GLCall.glCreateProgram p ∈ linkCalls q objs 0 ++ (programLogCalls q n ++
              GLCall.glDeleteProgram q :: objs.map GLCall.glDeleteShader) := by
            rw [ha.2]; simp
          simp only [List.mem_append, List.mem_cons, List.mem_map] at this
          rcases this with hm | hm | hm | ⟨_, _, hm⟩
          · exact absurd hm (mem_linkCalls_createProgram _ _ _ _)
          · have := programLogCalls_isProgramCall _ _ _ hm
            unfold programLogCalls at hm
            split_ifs at hm <;> simp at hm
          · exact GLCall.noConfusion hm
          · exact GLCall.noConfusion hm
      | @linked stage objs q status htr hq hs => simp at hout

/-- The shapes of Compile, stated for the version segment and the body of the
source. -/
theorem Compile_shape_of (d : Driver σ) (shaderCode : Str) (s : σ) (hne : shaderCode ≠ []) :
    CompileShape (shaderVersionOf shaderCode) (shaderBodyOf shaderCode)
      (Shader.Compile d ⟨0⟩ shaderCode s).outcome
      (Shader.Compile d ⟨0⟩ shaderCode s).self (Shader.Compile d ⟨0⟩ shaderCode s).gl.calls := by
  obtain ⟨v, c, hvc, hshape⟩ := Compile_shape d shaderCode s hne
  simpa [shaderVersionOf, shaderBodyOf, hvc] using hshape

theorem findFrom_eq_npos_of_absent (needle rest : Str) (i : Nat)
    (h : ¬ needle <:+: rest) : findFrom needle rest i = npos := by
  induction rest generalizing i with
  | nil =>
    simp only [findFrom]
    split_ifs with hp
    · rw [ List.isPrefixOf_iff_prefix] at hp
      exact absurd hp.isInfix h
    · rfl
  | cons x rest ih =>
    simp only [findFrom]
    split_ifs with hp
    · rw [ List.isPrefixOf_iff_prefix] at hp
      exact absurd hp.isInfix h
    · exact ih (i + 1) (fun hin => h (hin.trans (List.suffix_cons x rest).isInfix))

theorem find_eq_npos_of_absent (s needle : Str) (h : ¬ needle <:+: s) :
    find s needle 0 = npos := by
  simp [find, findFrom_eq_npos_of_absent needle s 0 h]

/-- The "no shader objects found" branch: for every non-empty source text whose
body (the text left after the version extraction, which is what line 125
searches) contains none of the three stage markers, and every driver, Compile on
an invalid instance returns failure, the handle stays Invalid, and the only
driver calls are the scope guard's three glDeleteShader(0). -/
theorem Compile_no_marker_in_body (d : Driver σ) (shaderCode : Str) (s : σ)
    (hne : shaderCode ≠ [])
    (hnone : ∀ t ∈ ShaderTypes, ¬ t.define <:+: shaderBodyOf shaderCode) :
    (Shader.Compile d ⟨InvalidHandle⟩ shaderCode s).outcome = Outcome.returned false ∧
    (Shader.Compile d ⟨InvalidHandle⟩ shaderCode s).self = ⟨InvalidHandle⟩ ∧
    (Shader.Compile d ⟨InvalidHandle⟩ shaderCode s).gl.calls
      = [GLCall.glDeleteShader 0, GLCall.glDeleteShader 0, GLCall.glDeleteShader 0] := by
  have hshape := Compile_shape_of d shaderCode s hne
  have hnone1 : ∀ t ∈ ShaderTypes, find (shaderBodyOf shaderCode) t.define 0 = npos :=
    fun t ht => find_eq_npos_of_absent _ _ (hnone t ht)
  simp only [InvalidHandle] at *
  generalize Shader.Compile d ⟨0⟩ shaderCode s = r at hshape ⊢
  obtain ⟨outcome, self, gl⟩ := r
  obtain ⟨st, calls⟩ := gl
  simp only at hshape ⊢
  cases hshape with
  | @stageFailed stage objs f htr =>
    have := htr.of_none_requested hnone1
    simp at this
  | @noStages stage objs htr =>
    obtain ⟨h1, h2, -, -⟩ := htr.of_none_requested hnone1
    subst h1 h2
    simp [ShaderTypes, List.replicate]
  | @programFailed stage objs htr =>
    have := htr.of_none_requested hnone1
    simp at this
  | @linkFailed stage objs q n htr hq =>
    have := htr.of_none_requested hnone1
    simp at this
  | @linked stage objs q status htr hq hs =>
    have := htr.of_none_requested hnone1
    simp at this

/-- C5 fails on the code: this non-empty source is `VERTEX_`, the directive line
`#version 1\n` and `xxxxxxxSHADER`; neither the source nor the source without
the directive line contains any of the three stage markers.  The erase of line
113 removes the directive line and the seven characters after it, so the body is
`VERTEX_SHADER`: a vertex stage and a program are created and, on a driver where
everything succeeds, Compile returns success with a valid handle. -/
theorem Compile_marker_joined_by_removal :
    "VERTEX_#version 1\nxxxxxxxSHADER".toList ≠ [] ∧
    "VERTEX_#version 1\nxxxxxxxSHADER".toList
      = "VERTEX_".toList ++ "#version 1\n".toList ++ "xxxxxxxSHADER".toList ∧
    (∀ t ∈ ShaderTypes, ¬ t.define <:+: "VERTEX_#version 1\nxxxxxxxSHADER".toList) ∧
    (∀ t ∈ ShaderTypes, ¬ t.define <:+: "VERTEX_".toList ++ "xxxxxxxSHADER".toList) ∧
    shaderBodyOf "VERTEX_#version 1\nxxxxxxxSHADER".toList = "VERTEX_SHADER".toList ∧
    (Shader.Compile okDriver ⟨InvalidHandle⟩ "VERTEX_#version 1\nxxxxxxxSHADER".toList 0).outcome
      = Outcome.returned true ∧
    (Shader.Compile okDriver ⟨InvalidHandle⟩
      "VERTEX_#version 1\nxxxxxxxSHADER".toList 0).self.IsValid = true ∧
    GLCall.glCreateShader GL_VERTEX_SHADER 1 ∈
      (Shader.Compile okDriver ⟨InvalidHandle⟩ "VERTEX_#version 1\nxxxxxxxSHADER".toList 0).gl.calls ∧
    GLCall.glCreateProgram 2 ∈
      (Shader.Compile okDriver ⟨InvalidHandle⟩
        "VERTEX_#version 1\nxxxxxxxSHADER".toList 0).gl.calls := by
  refine ⟨by decide, by decide, by decide, by decide, by decide, by decide, by decide,
    by decide, by decide⟩

/-- C7: calling Compile on an instance whose handle is already valid does not
return: the VERIFY check aborts before the source is inspected and before any
driver call, and the handle and the driver state are left as they were. -/
theorem Compile_on_valid_instance_aborts (d : Driver σ) (self : Shader) (shaderCode : Str)
    (s : σ) (hvalid : self.IsValid = true) :
    (Shader.Compile d self shaderCode s).outcome = Outcome.aborted ∧
    (Shader.Compile d self shaderCode s).self = self ∧
    (Shader.Compile d self shaderCode s).gl.calls = [] ∧
    (Shader.Compile d self shaderCode s).gl.state = s := by
  have h : (self.m_handle == InvalidHandle) = false := by
    simpa [Shader.IsValid, bne_iff_ne] using hvalid
  simp [Shader.Compile, VERIFY, h]

/-- Witness for C7: a second Compile on an instance holding program 3. -/
theorem Compile_on_valid_instance_aborts_witness :
    (Shader.Compile okDriver ⟨3⟩ "#version 330\nVERTEX_SHADER".toList 7).outcome
        = Outcome.aborted ∧
    (Shader.Compile okDriver ⟨3⟩ "#version 330\nVERTEX_SHADER".toList 7).self = ⟨3⟩ ∧
    (Shader.Compile okDriver ⟨3⟩ "#version 330\nVERTEX_SHADER".toList 7).gl.calls = [] ∧
    (Shader.Compile okDriver ⟨3⟩ "#version 330\nVERTEX_SHADER".toList 7).gl.state = 7 :=
  Compile_on_valid_instance_aborts okDriver ⟨3⟩ "#version 330\nVERTEX_SHADER".toList 7
    (by decide)

/-! ## Claims about the order of the driver calls -/

theorem programLogCalls_not_linkStep (p : GLuint) (n : Nat) :
    ∀ x ∈ programLogCalls p n, x.isLinkStepCall = false := by
  intro x hx
  unfold programLogCalls at hx
  split_ifs at hx
  · simp at hx
    rcases hx with rfl | rfl <;> rfl
  · simp at hx
    subst hx; rfl

theorem isProgramCall_of_isStageCall (x : GLCall) (h : x.isStageCall = true) :
    x.isProgramCall = false := by
  cases x <;> simp_all [GLCall.isStageCall, GLCall.isProgramCall]

/-- C6: whenever a Compile call on an invalid instance gets a non-zero program
name `p` from glCreateProgram, its driver call sequence is: the compile-phase
calls; glCreateProgram; glAttachShader of every stage name created in the
compile phase, in creation order; one glLinkProgram; glDetachShader of exactly
the same names; then the link-status query; and after it no attach, link or
detach.  The created stages are exactly the requested entries of the table in
table order, all with non-zero names, and this holds whatever link status the
driver reports, the status deciding only the return value. -/
theorem Compile_link_sequence (d : Driver σ) (shaderCode : Str) (s : σ) (p : GLuint)
    (hp : p ≠ InvalidHandle)
    (hcreated : GLCall.glCreateProgram p
      ∈ (Shader.Compile d ⟨InvalidHandle⟩ shaderCode s).gl.calls) :
    ∃ stage status rest,
      (Shader.Compile d ⟨InvalidHandle⟩ shaderCode s).gl.calls
        = stage ++ GLCall.glCreateProgram p
          :: (((createdShaders stage).map Prod.snd).map (GLCall.glAttachShader p)
          ++ GLCall.glLinkProgram p
          :: (((createdShaders stage).map Prod.snd).map (GLCall.glDetachShader p)
          ++ GLCall.glGetProgramiv p GL_LINK_STATUS status :: rest)) ∧
      (∀ x ∈ stage, x.isStageCall = true) ∧
      (createdShaders stage).map Prod.fst
        = requestedTypes (shaderBodyOf shaderCode) ShaderTypes ∧
      (∀ h ∈ (createdShaders stage).map Prod.snd, h ≠ InvalidHandle) ∧
      (∀ x ∈ rest, x.isLinkStepCall = false) ∧
      (Shader.Compile d ⟨InvalidHandle⟩ shaderCode s).outcome
        = Outcome.returned (decide (status ≠ GL_FALSE)) := by
  by_cases hne : shaderCode = []
  · subst hne
    simp [Shader.Compile, VERIFY, InvalidHandle] at hcreated
  · have hshape := Compile_shape_of d shaderCode s hne
    simp only [InvalidHandle] at *
    generalize Shader.Compile d ⟨0⟩ shaderCode s = r at hshape hcreated ⊢
    obtain ⟨outcome, self, gl⟩ := r
    obtain ⟨st, calls⟩ := gl
    simp only at hshape hcreated ⊢
    cases hshape with
    | @stageFailed stage objs f htr =>
      rcases List.mem_append.1 hcreated with hm | hm
      · exact absurd hm (htr.not_mem_of_not_stageCall _ rfl)
      · simp at hm
    | @noStages stage objs htr =>
      rcases List.mem_append.1 hcreated with hm | hm
      · exact absurd hm (htr.not_mem_of_not_stageCall _ rfl)
      · simp at hm
    | @programFailed stage objs htr =>
      rcases List.mem_append.1 hcreated with hm | hm
      · exact absurd hm (htr.not_mem_of_not_stageCall _ rfl)
      · simp at hm
        exact absurd hm hp
    | @linkFailed stage objs q n htr hq =>
      have hpq : p = q := by
        rcases List.mem_append.1 hcreated with hm | hm
        · exact absurd hm (htr.not_mem_of_not_stageCall _ rfl)
        · simp only [List.mem_cons, List.mem_append, List.mem_map] at hm
          rcases hm with hm | hm | hm | hm | ⟨_, _, hm⟩
          · exact GLCall.glCreateProgram.inj hm
          · exact absurd hm (mem_linkCalls_createProgram _ _ _ _)
          · have := programLogCalls_not_linkStep _ _ _ hm
            unfold programLogCalls at hm
            split_ifs at hm <;> simp at hm
          · exact GLCall.noConfusion hm
          · exact GLCall.noConfusion hm
      subst hpq
      obtain ⟨hsnd, hfst⟩ := htr.created_of_completed rfl
      refine ⟨stage, 0, programLogCalls p n ++ GLCall.glDeleteProgram p
        :: objs.map GLCall.glDeleteShader, ?_, htr.isStageCall, hfst, ?_, ?_, ?_⟩
      · simp [linkCalls, hsnd]
      · intro h hh
        rw [hsnd] at hh
        simpa using (List.mem_filter.1 hh).2
      · intro x hx
        simp only [List.mem_append, List.mem_cons, List.mem_map] at hx
        rcases hx with hx | rfl | ⟨_, _, rfl⟩
        · exact programLogCalls_not_linkStep _ _ _ hx
        · rfl
        · rfl
      · simp [GL_FALSE]
    | @linked stage objs q status htr hq hs =>
      have hpq : p = q := by
        rcases List.mem_append.1 hcreated with hm | hm
        · exact absurd hm (htr.not_mem_of_not_stageCall _ rfl)
        · simp only [List.mem_cons, List.mem_append, List.mem_map] at hm
          rcases hm with hm | hm | ⟨_, _, hm⟩
          · exact GLCall.glCreateProgram.inj hm
          · exact absurd hm (mem_linkCalls_createProgram _ _ _ _)
          · exact GLCall.noConfusion hm
      subst hpq
      obtain ⟨hsnd, hfst⟩ := htr.created_of_completed rfl
      refine ⟨stage, status, objs.map GLCall.glDeleteShader, ?_, htr.isStageCall, hfst, ?_, ?_,
        ?_⟩
      · simp [linkCalls, hsnd]
      · intro h hh
        rw [hsnd] at hh
        simpa using (List.mem_filter.1 hh).2
      · intro x hx
        simp only [List.mem_map] at hx
        obtain ⟨_, _, rfl⟩ := hx
        rfl
      · simp [GL_FALSE, hs]

theorem createdShaders_deletes (objs : List GLuint) :
    createdShaders (objs.map GLCall.glDeleteShader) = [] := by
  induction objs with
  | nil => rfl
  | cons a objs ih => simpa [createdShaders] using ih

/-- A failed compile-status query is the loop's last stage: the loop returns
false and only that stage's diagnostic queries follow. -/
theorem StageTrace.of_compile_failure {v c : Str} {ts calls objs e f}
    (htr : StageTrace v c ts calls objs e f) (h : GLuint)
    (hfail : GLCall.glGetShaderiv h GL_COMPILE_STATUS 0 ∈ calls) :
    e = true ∧ ∃ pre n, calls = pre ++ GLCall.glGetShaderiv h GL_COMPILE_STATUS 0
      :: shaderLogCalls h n := by
  induction htr with
  | done => simp at hfail
  | skip _ _ ih => exact ih hfail
  | createFailed _ => simp at hfail
  | @compileFailed t ts h1 n hreq h0 =>
    refine ⟨rfl, ?_⟩
    have hh : h = h1 := by
      rcases List.mem_append.1 hfail with hm | hm
      · simp [stageCalls] at hm
        exact hm
      · unfold shaderLogCalls at hm
        split_ifs at hm <;> simp [GL_COMPILE_STATUS, GL_INFO_LOG_LENGTH] at hm
    subst hh
    exact ⟨[GLCall.glCreateShader t.type h,
      GLCall.glShaderSource h [c_str v, c_str (shaderDefineOf t), c_str c],
      GLCall.glCompileShader h], n, by simp [stageCalls]⟩
  | @compiled t ts h1 status calls1 objs1 e1 f1 hreq h0 hs _ ih =>
    rcases List.mem_append.1 hfail with hm | hm
    · simp [stageCalls] at hm
      exact absurd hm.2.symm hs
    · obtain ⟨he, pre, n, hpre⟩ := ih hm
      exact ⟨he, stageCalls v c t h1 status ++ pre, n, by simp [hpre]⟩

/-- C9: the stages are created in table order (the created types are a prefix
of the requested table entries), and if the driver answers a compile-status query
with GL_FALSE then Compile returns failure with the handle Invalid; after that
query the only driver calls are that stage's diagnostic queries and the scope
guard's glDeleteShader calls, so no later stage is created or compiled; and no
program call (create, attach, link, detach, query, delete) occurs anywhere in the
sequence. -/
theorem Compile_stops_at_compile_failure (d : Driver σ) (shaderCode : Str) (s : σ)
    (h : GLuint)
    (hfail : GLCall.glGetShaderiv h GL_COMPILE_STATUS GL_FALSE
      ∈ (Shader.Compile d ⟨InvalidHandle⟩ shaderCode s).gl.calls) :
    (Shader.Compile d ⟨InvalidHandle⟩ shaderCode s).outcome = Outcome.returned false ∧
    (Shader.Compile d ⟨InvalidHandle⟩ shaderCode s).self = ⟨InvalidHandle⟩ ∧
    (∃ (pre : List GLCall) (n : Nat) (objs : List GLuint),
      (Shader.Compile d ⟨InvalidHandle⟩ shaderCode s).gl.calls
        = pre ++ GLCall.glGetShaderiv h GL_COMPILE_STATUS GL_FALSE
          :: (shaderLogCalls h n ++ objs.map GLCall.glDeleteShader)) ∧
    (∀ x ∈ (Shader.Compile d ⟨InvalidHandle⟩ shaderCode s).gl.calls, x.isProgramCall = false) ∧
    (createdShaders (Shader.Compile d ⟨InvalidHandle⟩ shaderCode s).gl.calls).map Prod.fst
      <+: requestedTypes (shaderBodyOf shaderCode) ShaderTypes := by
  by_cases hne : shaderCode = []
  · subst hne
    simp [Shader.Compile, VERIFY, InvalidHandle] at hfail
  · have hshape := Compile_shape_of d shaderCode s hne
    simp only [InvalidHandle, GL_FALSE] at hfail ⊢
    generalize Shader.Compile d ⟨0⟩ shaderCode s = r at hshape hfail ⊢
    obtain ⟨outcome, self, gl⟩ := r
    obtain ⟨st, calls⟩ := gl
    simp only at hshape hfail ⊢
    obtain ⟨stage, objs, e, f, program, htr, hc, hprog, hexit⟩ := hshape.phases
    have hstage : GLCall.glGetShaderiv h GL_COMPILE_STATUS 0 ∈ stage := by
      rw [hc] at hfail
      simp only [List.mem_append, List.mem_map] at hfail
      rcases hfail with hm | hm | ⟨_, _, hm⟩
      · exact hm
      · have := hprog _ hm
        simp [GLCall.isProgramCall] at this
      · exact GLCall.noConfusion hm
    obtain ⟨he, pre, n, hpre⟩ := htr.of_compile_failure h hstage
    have hprogram := hexit he
    subst hprogram
    subst he
    have hcalls : calls = stage ++ objs.map GLCall.glDeleteShader := by simpa using hc
    have hout : outcome = Outcome.returned false ∧ self = ⟨0⟩ := by
      cases hshape with
      | stageFailed _ => exact ⟨rfl, rfl⟩
      | noStages _ => exact ⟨rfl, rfl⟩
      | programFailed _ => exact ⟨rfl, rfl⟩
      | linkFailed _ _ => exact ⟨rfl, rfl⟩
      | @linked stage1 objs1 q status htr1 hq hs =>
        exfalso
        have : GLCall.glCreateProgram q ∈ stage ++ objs.map GLCall.glDeleteShader := by
          rw [← hcalls]; simp
        rcases List.mem_append.1 this with hm | hm
        · exact absurd hm (htr.not_mem_of_not_stageCall _ rfl)
        · simp at hm
    refine ⟨hout.1, hout.2, ⟨pre, n, objs, by rw [hcalls, hpre]; simp⟩, ?_, ?_⟩
    · intro x hx
      rw [hcalls] at hx
      rcases List.mem_append.1 hx with hm | hm
      · exact isProgramCall_of_isStageCall x (htr.isStageCall x hm)
      · simp only [List.mem_map] at hm
        obtain ⟨_, _, rfl⟩ := hm
        rfl
    · rw [hcalls, createdShaders_append, createdShaders_deletes, List.append_nil]
      exact htr.created_types_initial

/-! ## The version extraction -/

theorem findFrom_first (needle : Str) :
    ∀ (rest : Str) (i k : Nat), k ≤ rest.length → needle <+: rest.drop k →
      (∀ j < k, ¬ needle <+: rest.drop j) → findFrom needle rest i = i + k := by
  intro rest
  induction rest with
  | nil =>
    intro i k hk hpre _
    have hk0 : k = 0 := by simpa using hk
    subst hk0
    have : needle.isPrefixOf [] = true := by
      rw [ List.isPrefixOf_iff_prefix]; simpa using hpre
    simp [findFrom, this]
  | cons x rest ih =>
    intro i k hk hpre hfirst
    cases k with
    | zero =>
      have : needle.isPrefixOf (x :: rest) = true := by
        rw [ List.isPrefixOf_iff_prefix]; simpa using hpre
      simp [findFrom, this]
    | succ k =>
      have h0 : ¬ needle.isPrefixOf (x :: rest) = true := by
        rw [ List.isPrefixOf_iff_prefix]
        simpa using hfirst 0 (Nat.succ_pos k)
      have hrec := ih (i + 1) k (by simpa using hk) (by simpa using hpre)
        (fun j hj => by simpa using hfirst (j + 1) (Nat.succ_lt_succ hj))
      rw [findFrom, if_neg h0, hrec]
      omega

theorem findFrom_char (c : Char) (post : Str) :
    ∀ (a : Str) (i : Nat), c ∉ a → findFrom [c] (a ++ c :: post) i = i + a.length := by
  intro a
  induction a with
  | nil => intro i _; simp [findFrom, List.isPrefixOf]
  | cons x a ih =>
    intro i hc
    have hx : ¬ c = x := fun h => hc (by simp [h])
    have ha : c ∉ a := fun h => hc (List.mem_cons_of_mem _ h)
    have h0 : ¬ List.isPrefixOf [c] (x :: (a ++ c :: post)) = true := by
      simp [List.isPrefixOf, hx]
    rw [List.cons_append, findFrom, if_neg h0, ih (i + 1) ha, List.length_cons]
    omega

theorem findFrom_char_none (c : Char) :
    ∀ (rest : Str) (i : Nat), c ∉ rest → findFrom [c] rest i = npos := by
  intro rest
  induction rest with
  | nil => intro i _; simp [findFrom, List.isPrefixOf]
  | cons x rest ih =>
    intro i hc
    have hx : ¬ c = x := fun h => hc (by simp [h])
    have ha : c ∉ rest := fun h => hc (List.mem_cons_of_mem _ h)
    simp [findFrom, List.isPrefixOf, hx, ih (i + 1) ha]

/-- The search for the version token finds its first occurrence. -/
theorem find_versionToken (pre rest : Str)
    (hfirst : ∀ j < pre.length, ¬ versionToken <+: (pre ++ versionToken ++ rest).drop j) :
    find (pre ++ versionToken ++ rest) versionToken 0 = pre.length := by
  have h := findFrom_first versionToken (pre ++ versionToken ++ rest) 0 pre.length
    (by simp) (by simp [List.append_assoc]) hfirst
  simpa [find] using h

theorem newline_not_mem_versionToken : '\n' ∉ versionToken := by decide

theorem versionToken_length : versionToken.length = 9 := rfl

/-- The version extraction on a source whose first version token is followed by
a line terminator: the version segment is the directive line with its
terminator; the erase removes `versionEnd + 1` characters from the token on, that
is the directive line and as many further characters as precede the token. -/
theorem extractVersion_terminated (pre line post : Str)
    (hlen : (pre ++ versionToken ++ line ++ '\n' :: post).length < npos)
    (hfirst : ∀ j < pre.length,
      ¬ versionToken <+: (pre ++ versionToken ++ line ++ '\n' :: post).drop j)
    (hline : '\n' ∉ line) :
    extractVersion (pre ++ versionToken ++ line ++ '\n' :: post)
      = some (versionToken ++ line ++ ['\n'], pre ++ post.drop pre.length) := by
  have hsrc : pre ++ versionToken ++ line ++ '\n' :: post
      = pre ++ versionToken ++ (line ++ '\n' :: post) := by simp
  have hvs : find (pre ++ versionToken ++ line ++ '\n' :: post) versionToken 0 = pre.length := by
    rw [hsrc] at hfirst ⊢
    exact find_versionToken pre (line ++ '\n' :: post) hfirst
  have hnl : '\n' ∉ versionToken ++ line := by
    intro h
    rcases List.mem_append.1 h with h | h
    · exact newline_not_mem_versionToken h
    · exact hline h
  have hdrop : (pre ++ versionToken ++ line ++ '\n' :: post).drop pre.length
      = (versionToken ++ line) ++ '\n' :: post := by simp [List.append_assoc]
  have hve : findChar (pre ++ versionToken ++ line ++ '\n' :: post) '\n' pre.length
      = pre.length + (versionToken ++ line).length := by
    have hlt : ¬ pre.length ≥ (pre ++ versionToken ++ line ++ '\n' :: post).length := by
      simp
    rw [findChar, if_neg hlt, hdrop]
    exact findFrom_char '\n' post (versionToken ++ line) pre.length hnl
  have hL : (pre ++ versionToken ++ line ++ '\n' :: post).length
      = pre.length + (versionToken.length + line.length) + (post.length + 1) := by
    simp; omega
  have hN : npos = 18446744073709551615 := by decide
  rw [hL, hN] at hlen
  have hne : pre.length ≠ npos := by rw [hN]; omega
  have hcount : sizeAdd (sizeSub (pre.length + (versionToken ++ line).length) pre.length) 1
      = (versionToken ++ line).length + 1 := by
    simp only [sizeAdd, sizeSub, sizeModulus, List.length_append]
    omega
  have hcount2 : sizeAdd (pre.length + (versionToken ++ line).length) 1
      = pre.length + (versionToken ++ line).length + 1 := by
    simp only [sizeAdd, sizeModulus, List.length_append]
    omega
  have hpos : ¬ pre.length > (pre ++ versionToken ++ line ++ '\n' :: post).length := by
    simp
  simp only [extractVersion, hvs, hve, ne_eq, hne, not_false_eq_true, if_true, substr, erase,
    if_neg hpos, hcount, hcount2, hdrop]
  have h1 : min ((versionToken ++ line).length + 1)
      ((pre ++ versionToken ++ line ++ '\n' :: post).length - pre.length)
      = (versionToken ++ line).length + 1 := by
    rw [hL]; simp only [List.length_append]; omega
  have e : versionToken ++ line ++ '\n' :: post = (versionToken ++ line ++ ['\n']) ++ post := by
    simp
  have h2 : List.take ((versionToken ++ line).length + 1) (versionToken ++ line ++ '\n' :: post)
      = versionToken ++ line ++ ['\n'] := by
    have n : (versionToken ++ line).length + 1 = (versionToken ++ line ++ ['\n']).length := by
      simp only [List.length_append, List.length_singleton]
    rw [e, n, List.take_left]
  have h3 : List.drop (pre.length + min (pre.length + (versionToken ++ line).length + 1)
        ((pre ++ versionToken ++ line ++ '\n' :: post).length - pre.length))
      (pre ++ versionToken ++ line ++ '\n' :: post) = post.drop pre.length := by
    have e2 : pre ++ versionToken ++ line ++ '\n' :: post
        = (pre ++ versionToken ++ line ++ ['\n']) ++ post := by simp
    have n2 : pre.length + min (pre.length + (versionToken ++ line).length + 1)
          ((pre ++ versionToken ++ line ++ '\n' :: post).length - pre.length)
        = (pre ++ versionToken ++ line ++ ['\n']).length + min pre.length post.length := by
      rw [hL]; simp only [List.length_append, List.length_singleton]; omega
    rw [n2, e2, List.drop_append]
    by_cases hle : pre.length ≤ post.length
    · rw [Nat.min_eq_left hle]
    · rw [Nat.min_eq_right (by omega), List.drop_length,
        List.drop_eq_nil_of_le (by omega)]
  rw [h1, h2, h3]
  simp [List.append_assoc]

/-- The version extraction on a source whose first version token is followed by
no line terminator: versionEnd is npos, the erase count `versionEnd + 1` wraps to
0 and the source is kept whole; the substr count wraps to 0 when the token is at
index 0 and otherwise reaches the end of the source. -/
theorem extractVersion_unterminated (pre rest : Str)
    (hlen : (pre ++ versionToken ++ rest).length < npos)
    (hfirst : ∀ j < pre.length, ¬ versionToken <+: (pre ++ versionToken ++ rest).drop j)
    (hnl : '\n' ∉ rest) :
    find (pre ++ versionToken ++ rest) versionToken 0 = pre.length ∧
    findChar (pre ++ versionToken ++ rest) '\n' pre.length = npos ∧
    extractVersion (pre ++ versionToken ++ rest)
      = some (if pre = [] then [] else versionToken ++ rest, pre ++ versionToken ++ rest) := by
  have hvs := find_versionToken pre rest hfirst
  have hdrop : (pre ++ versionToken ++ rest).drop pre.length = versionToken ++ rest := by
    simp [List.append_assoc]
  have hnl2 : '\n' ∉ versionToken ++ rest := by
    intro h
    rcases List.mem_append.1 h with h | h
    · exact newline_not_mem_versionToken h
    · exact hnl h
  have hve : findChar (pre ++ versionToken ++ rest) '\n' pre.length = npos := by
    unfold findChar
    split_ifs
    · rfl
    · rw [hdrop]
      exact findFrom_char_none '\n' _ _ hnl2
  have hL : (pre ++ versionToken ++ rest).length = pre.length + (9 + rest.length) := by
    simp [versionToken_length]
  have hN : npos = 18446744073709551615 := by decide
  rw [hL, hN] at hlen
  have hne : pre.length ≠ npos := by rw [hN]; omega
  have hpos : ¬ pre.length > (pre ++ versionToken ++ rest).length := by simp
  have hcount2 : sizeAdd npos 1 = 0 := by decide
  refine ⟨hvs, hve, ?_⟩
  simp only [extractVersion, hvs, hve, ne_eq, hne, not_false_eq_true, if_true, substr, erase,
    if_neg hpos, hcount2, hdrop, Nat.zero_min, Nat.add_zero, List.take_append_drop]
  by_cases hp : pre = []
  · subst hp
    have hc : sizeAdd (sizeSub npos 0) 1 = 0 := by decide
    simp [hc]
  · have hpl : 0 < pre.length := List.length_pos.2 hp
    have hc : sizeAdd (sizeSub npos pre.length) 1 = 18446744073709551616 - pre.length := by
      simp only [sizeAdd, sizeSub, sizeModulus, hN]
      omega
    have hmin : min (18446744073709551616 - pre.length)
        ((pre ++ versionToken ++ rest).length - pre.length) = (versionToken ++ rest).length := by
      rw [hL]; simp only [List.length_append, versionToken_length]; omega
    simp only [hc, hmin, hp, if_false, List.take_length]
    simp [List.append_assoc]

/-- The version extraction on a source without version token changes nothing. -/
theorem extractVersion_absent (shaderCode : Str) (h : ¬ versionToken <:+: shaderCode) :
    extractVersion shaderCode = some ([], shaderCode) := by
  simp [extractVersion, find_eq_npos_of_absent shaderCode versionToken h]

theorem infix_of_find_ne_npos (s needle : Str) (h : find s needle 0 ≠ npos) : needle <:+: s := by
  by_contra hn
  exact h (find_eq_npos_of_absent s needle hn)

/-- Every source submitted in the compile loop is the three-segment list of the
stage whose object was created just before. -/
theorem StageTrace.source_segments {v c : Str} {ts calls objs e f}
    (htr : StageTrace v c ts calls objs e f) (h : GLuint) (segs : List Str)
    (hm : GLCall.glShaderSource h segs ∈ calls) :
    ∃ t ∈ ts, find c t.define 0 ≠ npos ∧
      segs = [c_str v, c_str (shaderDefineOf t), c_str c] ∧
      [GLCall.glCreateShader t.type h, GLCall.glShaderSource h segs] <:+: calls := by
  induction htr with
  | done => simp at hm
  | skip _ _ ih =>
    obtain ⟨t, ht, h1, h2, h3⟩ := ih hm
    exact ⟨t, List.mem_cons_of_mem _ ht, h1, h2, h3⟩
  | createFailed _ => simp at hm
  | @compileFailed t ts h1 n hreq h0 =>
    rcases List.mem_append.1 hm with hm | hm
    · simp [stageCalls] at hm
      obtain ⟨rfl, rfl⟩ := hm
      exact ⟨t, List.mem_cons_self _ _, hreq, rfl,
        ⟨[], GLCall.glCompileShader h :: GLCall.glGetShaderiv h GL_COMPILE_STATUS 0
          :: shaderLogCalls h n, by simp [stageCalls]⟩⟩
    · unfold shaderLogCalls at hm
      split_ifs at hm <;> simp at hm
  | @compiled t ts h1 status calls1 objs1 e1 f1 hreq h0 hs _ ih =>
    rcases List.mem_append.1 hm with hm | hm
    · simp [stageCalls] at hm
      obtain ⟨rfl, rfl⟩ := hm
      exact ⟨t, List.mem_cons_self _ _, hreq, rfl,
        ⟨[], GLCall.glCompileShader h :: GLCall.glGetShaderiv h GL_COMPILE_STATUS status
          :: calls1, by simp [stageCalls]⟩⟩
    · obtain ⟨t1, ht, h1, h2, h3⟩ := ih hm
      exact ⟨t1, List.mem_cons_of_mem _ ht, h1, h2,
        h3.trans (List.suffix_append _ _).isInfix⟩

/-- Every stage object created with a non-zero name is handed its
three-segment source in the next call. -/
theorem StageTrace.created_source {v c : Str} {ts calls objs e f}
    (htr : StageTrace v c ts calls objs e f) (ty : GLenum) (h : GLuint)
    (hm : GLCall.glCreateShader ty h ∈ calls) (h0 : h ≠ 0) :
    ∃ t ∈ ts, ty = t.type ∧ find c t.define 0 ≠ npos ∧
      [GLCall.glCreateShader ty h,
        GLCall.glShaderSource h [c_str v, c_str (shaderDefineOf t), c_str c]]
        <:+: calls := by
  induction htr with
  | done => simp at hm
  | skip _ _ ih =>
    obtain ⟨t, ht, h1, h2, h3⟩ := ih hm
    exact ⟨t, List.mem_cons_of_mem _ ht, h1, h2, h3⟩
  | createFailed _ =>
    simp at hm
    exact absurd hm.2 h0
  | @compileFailed t ts h1 n hreq h10 =>
    rcases List.mem_append.1 hm with hm | hm
    · simp [stageCalls] at hm
      obtain ⟨rfl, rfl⟩ := hm
      exact ⟨t, List.mem_cons_self _ _, rfl, hreq,
        ⟨[], GLCall.glCompileShader h :: GLCall.glGetShaderiv h GL_COMPILE_STATUS 0
          :: shaderLogCalls h n, by simp [stageCalls]⟩⟩
    · unfold shaderLogCalls at hm
      split_ifs at hm <;> simp at hm
  | @compiled t ts h1 status calls1 objs1 e1 f1 hreq h10 hs _ ih =>
    rcases List.mem_append.1 hm with hm | hm
    · simp [stageCalls] at hm
      obtain ⟨rfl, rfl⟩ := hm
      exact ⟨t, List.mem_cons_self _ _, rfl, hreq,
        ⟨[], GLCall.glCompileShader h :: GLCall.glGetShaderiv h GL_COMPILE_STATUS status
          :: calls1, by simp [stageCalls]⟩⟩
    · obtain ⟨t1, ht, h1, h2, h3⟩ := ih hm
      exact ⟨t1, List.mem_cons_of_mem _ ht, h1, h2,
        h3.trans (List.suffix_append _ _).isInfix⟩

/-! ## Claims about the version segment and the body -/

theorem c_str_of_no_nul (s : Str) (h : Char.ofNat 0 ∉ s) : c_str s = s := by
  unfold c_str
  rw [List.takeWhile_eq_self_iff]
  intro x hx
  simp only [bne_iff_ne, ne_eq]
  intro hx0
  exact h (hx0 ▸ hx)

theorem c_str_shaderDefineOf (t : ShaderType) (ht : t ∈ ShaderTypes) :
    c_str (shaderDefineOf t) = "#define ".toList ++ t.define ++ "\n".toList := by
  simp only [ShaderTypes, List.mem_cons, List.mem_singleton, List.not_mem_nil, or_false] at ht
  rcases ht with rfl | rfl | rfl <;> decide

theorem define_ne_nil (t : ShaderType) (ht : t ∈ ShaderTypes) : t.define ≠ [] := by
  simp only [ShaderTypes, List.mem_cons, List.mem_singleton, List.not_mem_nil, or_false] at ht
  rcases ht with rfl | rfl | rfl <;> decide

/-- The version segment and the body are made of characters of the source, and
the body is no longer than the source. -/
theorem extractVersion_sub (shaderCode v c : Str) (h : extractVersion shaderCode = some (v, c)) :
    (∀ x ∈ v, x ∈ shaderCode) ∧ (∀ x ∈ c, x ∈ shaderCode) ∧ c.length ≤ shaderCode.length := by
  by_cases hn : find shaderCode versionToken 0 = npos
  · simp only [extractVersion, ne_eq, hn, not_true_eq_false, if_false, Option.some.injEq,
      Prod.mk.injEq] at h
    obtain ⟨rfl, rfl⟩ := h
    simp
  · by_cases hp : find shaderCode versionToken 0 > shaderCode.length
    · simp [extractVersion, hn, substr, hp] at h
    · simp only [extractVersion, ne_eq, hn, not_false_eq_true, if_true, substr, erase,
        if_neg hp, Option.some.injEq, Prod.mk.injEq] at h
      obtain ⟨rfl, rfl⟩ := h
      refine ⟨fun x hx => List.mem_of_mem_drop (List.mem_of_mem_take hx), ?_, ?_⟩
      · intro x hx
        rcases List.mem_append.1 hx with hx | hx
        · exact List.mem_of_mem_take hx
        · exact List.mem_of_mem_drop hx
      · simp only [List.length_append, List.length_take, List.length_drop]
        omega

theorem shaderBodyOf_sub (shaderCode : Str) :
    (∀ x ∈ shaderBodyOf shaderCode, x ∈ shaderCode) ∧
    (shaderBodyOf shaderCode).length ≤ shaderCode.length := by
  obtain ⟨v, c, hvc⟩ := extractVersion_isSome shaderCode
  obtain ⟨-, h2, h3⟩ := extractVersion_sub shaderCode v c hvc
  simpa [shaderBodyOf, hvc] using And.intro h2 h3

theorem shaderVersionOf_sub (shaderCode : Str) :
    ∀ x ∈ shaderVersionOf shaderCode, x ∈ shaderCode := by
  obtain ⟨v, c, hvc⟩ := extractVersion_isSome shaderCode
  obtain ⟨h1, -, -⟩ := extractVersion_sub shaderCode v c hvc
  simpa [shaderVersionOf, hvc] using h1

theorem exists_first_occurrence (needle s : Str) (h : needle <:+: s) :
    ∃ k, k ≤ s.length ∧ needle <+: s.drop k ∧ ∀ j < k, ¬ needle <+: s.drop j := by
  classical
  obtain ⟨a, b, rfl⟩ := h
  have hat : needle <+: (a ++ needle ++ b).drop a.length := by simp [List.append_assoc]
  have hex : ∃ k, needle <+: (a ++ needle ++ b).drop k := ⟨a.length, hat⟩
  refine ⟨Nat.find hex, ?_, Nat.find_spec hex, fun j hj => Nat.find_min hex hj⟩
  have : Nat.find hex ≤ a.length := Nat.find_le hat
  simp only [List.length_append]
  omega

/-- On a string shorter than npos the search finds every needle that occurs. -/
theorem find_ne_npos_of_present (s needle : Str) (h : needle <:+: s) (hlen : s.length < npos) :
    find s needle 0 ≠ npos := by
  obtain ⟨k, hk, hpre, hfirst⟩ := exists_first_occurrence needle s h
  have := findFrom_first needle s 0 k hk hpre hfirst
  have hf : find s needle 0 = k := by simpa [find] using this
  rw [hf]
  omega

/-- Every requested table entry is created and handed its source, unless the
loop returned early. -/
theorem StageTrace.requested_submitted {v c : Str} {ts calls objs e f}
    (htr : StageTrace v c ts calls objs e f) :
    ∀ t ∈ ts, find c t.define 0 ≠ npos →
      (∃ h, h ≠ 0 ∧ [GLCall.glCreateShader t.type h,
        GLCall.glShaderSource h [c_str v, c_str (shaderDefineOf t), c_str c]] <:+: calls) ∨
      e = true := by
  induction htr with
  | done => simp
  | @skip t0 ts0 calls0 objs0 e0 f0 hreq _ ih =>
    intro t ht hr
    rcases List.mem_cons.1 ht with rfl | ht
    · exact absurd hreq hr
    · exact ih t ht hr
  | createFailed _ => intro t _ _; exact Or.inr rfl
  | compileFailed _ _ => intro t _ _; exact Or.inr rfl
  | @compiled t0 ts0 h1 status calls1 objs1 e1 f1 hreq h0 hs _ ih =>
    intro t ht hr
    rcases List.mem_cons.1 ht with rfl | ht
    · exact Or.inl ⟨h1, h0, ⟨[], GLCall.glCompileShader h1
        :: GLCall.glGetShaderiv h1 GL_COMPILE_STATUS status :: calls1, by simp [stageCalls]⟩⟩
    · rcases ih t ht hr with ⟨h, hh, hin⟩ | he
      · exact Or.inl ⟨h, hh, hin.trans (List.suffix_append _ _).isInfix⟩
      · exact Or.inr he

/-- The loop returns early only after a refused creation or a failed compile. -/
theorem StageTrace.exit_cause {v c : Str} {ts calls objs e f}
    (htr : StageTrace v c ts calls objs e f) (he : e = true) :
    (∃ ty, GLCall.glCreateShader ty 0 ∈ calls) ∨
    (∃ h, GLCall.glGetShaderiv h GL_COMPILE_STATUS 0 ∈ calls) := by
  induction htr with
  | done => simp at he
  | skip _ _ ih => exact ih he
  | @createFailed t ts hreq => exact Or.inl ⟨t.type, by simp⟩
  | @compileFailed t ts h n hreq h0 => exact Or.inr ⟨h, by simp [stageCalls]⟩
  | @compiled t ts h status calls1 objs1 e1 f1 hreq h0 hs _ ih =>
    rcases ih he with ⟨ty, hm⟩ | ⟨h2, hm⟩
    · exact Or.inl ⟨ty, List.mem_append_right _ hm⟩
    · exact Or.inr ⟨h2, List.mem_append_right _ hm⟩

/-- Every glShaderSource call of Compile carries the three segments of a
requested table entry and directly follows the creation of its object. -/
theorem Compile_source_segments (d : Driver σ) (shaderCode : Str) (s : σ) (h : GLuint)
    (segs : List Str)
    (hm : GLCall.glShaderSource h segs ∈ (Shader.Compile d ⟨0⟩ shaderCode s).gl.calls) :
    ∃ t ∈ ShaderTypes, t.define <:+: shaderBodyOf shaderCode ∧
      segs = [c_str (shaderVersionOf shaderCode),
        "#define ".toList ++ t.define ++ "\n".toList, c_str (shaderBodyOf shaderCode)] ∧
      [GLCall.glCreateShader t.type h, GLCall.glShaderSource h segs]
        <:+: (Shader.Compile d ⟨0⟩ shaderCode s).gl.calls := by
  by_cases hne : shaderCode = []
  · subst hne
    simp [Shader.Compile, VERIFY, InvalidHandle] at hm
  · have hshape := Compile_shape_of d shaderCode s hne
    obtain ⟨stage, objs, e, f, program, htr, hc, hprog, -⟩ := hshape.phases
    rw [hc] at hm ⊢
    have hstage : GLCall.glShaderSource h segs ∈ stage := by
      simp only [List.mem_append, List.mem_map] at hm
      rcases hm with hm | hm | ⟨_, _, hm⟩
      · exact hm
      · have := hprog _ hm
        simp [GLCall.isProgramCall] at this
      · exact GLCall.noConfusion hm
    obtain ⟨t, ht, hreq, hsegs, hin⟩ := htr.source_segments h segs hstage
    rw [c_str_shaderDefineOf t ht] at hsegs
    exact ⟨t, ht, infix_of_find_ne_npos _ _ hreq, hsegs,
      hin.trans (List.prefix_append _ _).isInfix⟩

/-- Every stage object that Compile creates with a non-zero name receives its
three-segment source in the next driver call. -/
theorem Compile_created_source (d : Driver σ) (shaderCode : Str) (s : σ) (ty : GLenum)
    (h : GLuint)
    (hm : GLCall.glCreateShader ty h ∈ (Shader.Compile d ⟨0⟩ shaderCode s).gl.calls)
    (h0 : h ≠ 0) :
    ∃ t ∈ ShaderTypes, ty = t.type ∧ t.define <:+: shaderBodyOf shaderCode ∧
      [GLCall.glCreateShader ty h, GLCall.glShaderSource h
        [c_str (shaderVersionOf shaderCode), "#define ".toList ++ t.define ++ "\n".toList,
          c_str (shaderBodyOf shaderCode)]]
        <:+: (Shader.Compile d ⟨0⟩ shaderCode s).gl.calls := by
  by_cases hne : shaderCode = []
  · subst hne
    simp [Shader.Compile, VERIFY, InvalidHandle] at hm
  · have hshape := Compile_shape_of d shaderCode s hne
    obtain ⟨stage, objs, e, f, program, htr, hc, hprog, -⟩ := hshape.phases
    rw [hc] at hm ⊢
    have hstage : GLCall.glCreateShader ty h ∈ stage := by
      simp only [List.mem_append, List.mem_map] at hm
      rcases hm with hm | hm | ⟨_, _, hm⟩
      · exact hm
      · have := hprog _ hm
        simp [GLCall.isProgramCall] at this
      · exact GLCall.noConfusion hm
    obtain ⟨t, ht, hty, hreq, hin⟩ := htr.created_source ty h hstage h0
    rw [c_str_shaderDefineOf t ht] at hin
    exact ⟨t, ht, hty, infix_of_find_ne_npos _ _ hreq,
      hin.trans (List.prefix_append _ _).isInfix⟩

/-- Every table entry whose marker occurs in the body is created and handed its
three-segment source, unless a creation was refused or a compile failed. -/
theorem Compile_requested_submitted (d : Driver σ) (shaderCode : Str) (s : σ)
    (hlen : shaderCode.length < npos) (t : ShaderType) (ht : t ∈ ShaderTypes)
    (hreq : t.define <:+: shaderBodyOf shaderCode) :
    (∃ h, h ≠ 0 ∧ [GLCall.glCreateShader t.type h, GLCall.glShaderSource h
        [c_str (shaderVersionOf shaderCode), "#define ".toList ++ t.define ++ "\n".toList,
          c_str (shaderBodyOf shaderCode)]]
        <:+: (Shader.Compile d ⟨0⟩ shaderCode s).gl.calls) ∨
    (∃ ty, GLCall.glCreateShader ty 0 ∈ (Shader.Compile d ⟨0⟩ shaderCode s).gl.calls) ∨
    (∃ h, GLCall.glGetShaderiv h GL_COMPILE_STATUS 0
      ∈ (Shader.Compile d ⟨0⟩ shaderCode s).gl.calls) := by
  have hfind : find (shaderBodyOf shaderCode) t.define 0 ≠ npos :=
    find_ne_npos_of_present _ _ hreq (lt_of_le_of_lt (shaderBodyOf_sub shaderCode).2 hlen)
  by_cases hne : shaderCode = []
  · subst hne
    have hb : shaderBodyOf ([] : Str) = [] := by decide
    rw [hb] at hreq
    exact absurd (List.eq_nil_of_infix_nil hreq) (define_ne_nil t ht)
  · have hshape := Compile_shape_of d shaderCode s hne
    obtain ⟨stage, objs, e, f, program, htr, hc, -, -⟩ := hshape.phases
    rw [hc]
    rcases htr.requested_submitted t ht hfind with ⟨h, h0, hin⟩ | he
    · rw [c_str_shaderDefineOf t ht] at hin
      exact Or.inl ⟨h, h0, hin.trans (List.prefix_append _ _).isInfix⟩
    · rcases htr.exit_cause he with ⟨ty, hm⟩ | ⟨h, hm⟩
      · exact Or.inr (Or.inl ⟨ty, List.mem_append_left _ hm⟩)
      · exact Or.inr (Or.inr ⟨h, List.mem_append_left _ hm⟩)

/-- C8 as amended: for every source text shorter than npos, every source that
Compile submits to the driver is, for a stage of the table whose marker occurs in
the body and right after that stage's object was created, the three-segment list
[version segment, "#define " ++ marker ++ "\n", body] as the driver reads it
through the `c_str()` pointers, each segment ending at its first NUL; every stage
whose marker occurs in the body is created and handed exactly this list, unless a
glCreateShader returned 0 or a compile status was GL_FALSE in this call; every
object created with a non-zero name gets this list as the next call; version
segment and body are the same for all stages; when the source holds no NUL the
segments are the version segment and the body themselves; the version segment is
empty when the source has no version token, and is the text from the first
version token through its line terminator inclusive when a line terminator
follows that token. -/
theorem Compile_stage_source (d : Driver σ) (shaderCode : Str) (s : σ)
    (hlen : shaderCode.length < npos) :
    (∀ h segs,
      GLCall.glShaderSource h segs ∈ (Shader.Compile d ⟨InvalidHandle⟩ shaderCode s).gl.calls →
      ∃ t ∈ ShaderTypes, t.define <:+: shaderBodyOf shaderCode ∧
        segs = [c_str (shaderVersionOf shaderCode),
          "#define ".toList ++ t.define ++ "\n".toList, c_str (shaderBodyOf shaderCode)] ∧
        [GLCall.glCreateShader t.type h, GLCall.glShaderSource h segs]
          <:+: (Shader.Compile d ⟨InvalidHandle⟩ shaderCode s).gl.calls) ∧
    (∀ t ∈ ShaderTypes, t.define <:+: shaderBodyOf shaderCode →
      (∃ h, h ≠ InvalidHandle ∧
        [GLCall.glCreateShader t.type h, GLCall.glShaderSource h
          [c_str (shaderVersionOf shaderCode), "#define ".toList ++ t.define ++ "\n".toList,
            c_str (shaderBodyOf shaderCode)]]
          <:+: (Shader.Compile d ⟨InvalidHandle⟩ shaderCode s).gl.calls) ∨
      (∃ ty, GLCall.glCreateShader ty InvalidHandle
        ∈ (Shader.Compile d ⟨InvalidHandle⟩ shaderCode s).gl.calls) ∨
      (∃ h, GLCall.glGetShaderiv h GL_COMPILE_STATUS GL_FALSE
        ∈ (Shader.Compile d ⟨InvalidHandle⟩ shaderCode s).gl.calls)) ∧
    (∀ ty h,
      GLCall.glCreateShader ty h ∈ (Shader.Compile d ⟨InvalidHandle⟩ shaderCode s).gl.calls →
      h ≠ InvalidHandle →
      ∃ t ∈ ShaderTypes, ty = t.type ∧ t.define <:+: shaderBodyOf shaderCode ∧
        [GLCall.glCreateShader ty h, GLCall.glShaderSource h
          [c_str (shaderVersionOf shaderCode), "#define ".toList ++ t.define ++ "\n".toList,
            c_str (shaderBodyOf shaderCode)]]
          <:+: (Shader.Compile d ⟨InvalidHandle⟩ shaderCode s).gl.calls) ∧
    (Char.ofNat 0 ∉ shaderCode →
      c_str (shaderVersionOf shaderCode) = shaderVersionOf shaderCode ∧
      c_str (shaderBodyOf shaderCode) = shaderBodyOf shaderCode) ∧
    (¬ versionToken <:+: shaderCode → shaderVersionOf shaderCode = []) ∧
    (∀ pre line post, shaderCode = pre ++ versionToken ++ line ++ '\n' :: post →
      (∀ j < pre.length, ¬ versionToken <+: shaderCode.drop j) → '\n' ∉ line →
      shaderVersionOf shaderCode = versionToken ++ line ++ ['\n']) := by
  refine ⟨?_, ?_, ?_, ?_, ?_, ?_⟩
  · intro h segs hm
    exact Compile_source_segments d shaderCode s h segs hm
  · intro t ht hreq
    exact Compile_requested_submitted d shaderCode s hlen t ht hreq
  · intro ty h hm h0
    exact Compile_created_source d shaderCode s ty h hm h0
  · intro hnul
    exact ⟨c_str_of_no_nul _ (fun hx => hnul (shaderVersionOf_sub shaderCode _ hx)),
      c_str_of_no_nul _ (fun hx => hnul ((shaderBodyOf_sub shaderCode).1 _ hx))⟩
  · intro habsent
    simp [shaderVersionOf, extractVersion_absent shaderCode habsent]
  · intro pre line post hsrc hfirst hline
    subst hsrc
    rw [shaderVersionOf, extractVersion_terminated pre line post hlen hfirst hline]
    rfl

/-- Witness for C8 as amended: on the two-stage source, with a driver on which
everything succeeds, the vertex stage is created first and handed the directive
line, its define line and the body. -/
theorem Compile_stage_source_witness :
    twoStageSource.length < npos ∧
    ((∃ h, h ≠ InvalidHandle ∧
        [GLCall.glCreateShader GL_VERTEX_SHADER h, GLCall.glShaderSource h
          [c_str (shaderVersionOf twoStageSource),
            "#define ".toList ++ "VERTEX_SHADER".toList ++ "\n".toList,
            c_str (shaderBodyOf twoStageSource)]]
          <:+: (Shader.Compile okDriver ⟨InvalidHandle⟩ twoStageSource 0).gl.calls) ∨
      (∃ ty, GLCall.glCreateShader ty InvalidHandle
        ∈ (Shader.Compile okDriver ⟨InvalidHandle⟩ twoStageSource 0).gl.calls) ∨
      (∃ h, GLCall.glGetShaderiv h GL_COMPILE_STATUS GL_FALSE
        ∈ (Shader.Compile okDriver ⟨InvalidHandle⟩ twoStageSource 0).gl.calls)) ∧
    (Shader.Compile okDriver ⟨InvalidHandle⟩ twoStageSource 0).gl.calls.take 2
      = [GLCall.glCreateShader GL_VERTEX_SHADER 1,
         GLCall.glShaderSource 1 ["#version 330\n".toList, "#define VERTEX_SHADER\n".toList,
           "VERTEX_SHADER FRAGMENT_SHADER".toList]] :=
  ⟨by decide,
   (Compile_stage_source okDriver twoStageSource 0 (by decide)).2.1
     ⟨"vertex shader".toList, "VERTEX_SHADER".toList, GL_VERTEX_SHADER⟩
     (List.mem_cons_self _ _) (by decide),
   by decide⟩

/-- Counterexample to C8 as stated, at two sources.  In the first the version
token starts the source and no line terminator follows it: the token is there,
yet the version segment submitted for the vertex stage is empty, because the
substr count wraps to 0.  In the second the body holds a NUL: the third segment
submitted is the body up to that NUL, not the body. -/
theorem Compile_stage_source_not_as_claimed :
    versionToken <+: "#version 330 VERTEX_SHADER".toList ∧
    (Shader.Compile okDriver ⟨InvalidHandle⟩
        "#version 330 VERTEX_SHADER".toList 0).gl.calls.take 2
      = [GLCall.glCreateShader GL_VERTEX_SHADER 1,
         GLCall.glShaderSource 1 [[], "#define VERTEX_SHADER\n".toList,
           "#version 330 VERTEX_SHADER".toList]] ∧
    shaderBodyOf ("#version 330\nVERTEX_SHADER".toList ++ Char.ofNat 0 :: "void main();".toList)
      = "VERTEX_SHADER".toList ++ Char.ofNat 0 :: "void main();".toList ∧
    (Shader.Compile okDriver ⟨InvalidHandle⟩
        ("#version 330\nVERTEX_SHADER".toList ++ Char.ofNat 0 :: "void main();".toList)
        0).gl.calls.take 2
      = [GLCall.glCreateShader GL_VERTEX_SHADER 1,
         GLCall.glShaderSource 1 ["#version 330\n".toList, "#define VERTEX_SHADER\n".toList,
           "VERTEX_SHADER".toList]] := by
  refine ⟨by decide, by decide, by decide, by decide⟩

/-- C10: when the first version token of the source is followed by no line
terminator, the search for the terminator yields npos, the erase count
`versionEnd + 1` wraps to 0 modulo 2^64, the erase is in range and removes
nothing, and the body that Compile searches for markers and submits to every
stage is the whole source, version text included: the third segment the driver
reads is the source through its `c_str()` pointer, which is the source itself
when it holds no NUL. -/
theorem Compile_unterminated_version_keeps_source (d : Driver σ) (s : σ)
    (shaderCode pre rest : Str) (hsrc : shaderCode = pre ++ versionToken ++ rest)
    (hlen : shaderCode.length < npos)
    (hfirst : ∀ j < pre.length, ¬ versionToken <+: shaderCode.drop j)
    (hnl : '\n' ∉ rest) :
    find shaderCode versionToken 0 ≠ npos ∧
    findChar shaderCode '\n' (find shaderCode versionToken 0) = npos ∧
    sizeAdd (findChar shaderCode '\n' (find shaderCode versionToken 0)) 1 = 0 ∧
    erase shaderCode (find shaderCode versionToken 0)
      (sizeAdd (findChar shaderCode '\n' (find shaderCode versionToken 0)) 1)
      = some shaderCode ∧
    shaderBodyOf shaderCode = shaderCode ∧
    (∀ h segs,
      GLCall.glShaderSource h segs ∈ (Shader.Compile d ⟨InvalidHandle⟩ shaderCode s).gl.calls →
      ∃ t ∈ ShaderTypes, t.define <:+: shaderCode ∧
        segs = [c_str (shaderVersionOf shaderCode),
          "#define ".toList ++ t.define ++ "\n".toList, c_str shaderCode]) ∧
    (Char.ofNat 0 ∉ shaderCode → ∀ h segs,
      GLCall.glShaderSource h segs ∈ (Shader.Compile d ⟨InvalidHandle⟩ shaderCode s).gl.calls →
      ∃ t ∈ ShaderTypes, t.define <:+: shaderCode ∧
        segs = [shaderVersionOf shaderCode, "#define ".toList ++ t.define ++ "\n".toList,
          shaderCode]) := by
  subst hsrc
  obtain ⟨hvs, hve, hx⟩ := extractVersion_unterminated pre rest hlen hfirst hnl
  have hbody : shaderBodyOf (pre ++ versionToken ++ rest) = pre ++ versionToken ++ rest := by
    rw [shaderBodyOf, hx]
    rfl
  have hN : npos = 18446744073709551615 := by decide
  have hL : (pre ++ versionToken ++ rest).length = pre.length + (9 + rest.length) := by
    simp [versionToken_length]
  have hcount : sizeAdd npos 1 = 0 := by decide
  have hsegs : ∀ h segs,
      GLCall.glShaderSource h segs
        ∈ (Shader.Compile d ⟨InvalidHandle⟩ (pre ++ versionToken ++ rest) s).gl.calls →
      ∃ t ∈ ShaderTypes, t.define <:+: pre ++ versionToken ++ rest ∧
        segs = [c_str (shaderVersionOf (pre ++ versionToken ++ rest)),
          "#define ".toList ++ t.define ++ "\n".toList, c_str (pre ++ versionToken ++ rest)] := by
    intro h segs hm
    obtain ⟨t, ht, hin, hsegs, -⟩ :=
      Compile_source_segments d (pre ++ versionToken ++ rest) s h segs hm
    rw [hbody] at hin hsegs
    exact ⟨t, ht, hin, hsegs⟩
  refine ⟨?_, ?_, ?_, ?_, hbody, hsegs, ?_⟩
  · rw [hvs, hN]; rw [hL, hN] at hlen; omega
  · rw [hvs, hve]
  · rw [hvs, hve, hcount]
  · rw [hvs, hve, hcount]
    simp [erase]
  · intro hnul h segs hm
    obtain ⟨t, ht, hin, hs⟩ := hsegs h segs hm
    rw [c_str_of_no_nul _ hnul,
      c_str_of_no_nul _ (fun hx => hnul (shaderVersionOf_sub _ _ hx))] at hs
    exact ⟨t, ht, hin, hs⟩

/-- Witness for C10: a source ending in an unterminated version directive. -/
theorem Compile_unterminated_version_keeps_source_witness :
    shaderBodyOf unterminatedSource = unterminatedSource ∧
    shaderVersionOf unterminatedSource = "#version 330".toList ∧
    (Shader.Compile okDriver ⟨InvalidHandle⟩ unterminatedSource 0).outcome
      = Outcome.returned true :=
  ⟨(Compile_unterminated_version_keeps_source okDriver 0 unterminatedSource
      "VERTEX_SHADER ".toList "330".toList rfl (by decide) (by decide) (by decide)).2.2.2.2.1,
   by decide, by decide⟩

/-- C1 fails on the code: in this source the version directive follows a
comment line of 3 characters; the version segment is the directive line, but the
erase also removes the 3 characters after it, so the body is not the source
with the directive line removed. -/
theorem extractVersion_erases_beyond_version_line :
    "//\n#version 330\nFRAGMENT_SHADER".toList
      = "//\n".toList ++ "#version 330\n".toList ++ "FRAGMENT_SHADER".toList ∧
    extractVersion "//\n#version 330\nFRAGMENT_SHADER".toList
      = some ("#version 330\n".toList, "//\nGMENT_SHADER".toList) ∧
    shaderBodyOf "//\n#version 330\nFRAGMENT_SHADER".toList
      ≠ "//\n".toList ++ "FRAGMENT_SHADER".toList := by
  refine ⟨by decide, by decide, by decide⟩

/-- C2 fails on the code: this source has one version directive line and, outside
it, exactly the fragment marker; yet on a driver where everything succeeds
Compile returns failure without creating any object, because the erase removed
the start of the marker from the body. -/
theorem Compile_fails_when_version_follows_comment :
    "FRAGMENT_SHADER".toList <:+:
      "// fragment stage\n".toList ++ "#ifdef FRAGMENT_SHADER\nvoid main();\n#endif\n".toList ∧
    ¬ "VERTEX_SHADER".toList <:+:
      "// fragment stage\n".toList ++ "#ifdef FRAGMENT_SHADER\nvoid main();\n#endif\n".toList ∧
    ¬ "GEOMETRY_SHADER".toList <:+:
      "// fragment stage\n".toList ++ "#ifdef FRAGMENT_SHADER\nvoid main();\n#endif\n".toList ∧
    commentedSource = "// fragment stage\n".toList ++ "#version 330\n".toList
      ++ "#ifdef FRAGMENT_SHADER\nvoid main();\n#endif\n".toList ∧
    shaderBodyOf commentedSource = "// fragment stage\nADER\nvoid main();\n#endif\n".toList ∧
    (Shader.Compile okDriver ⟨InvalidHandle⟩ commentedSource 0).outcome
      = Outcome.returned false ∧
    (Shader.Compile okDriver ⟨InvalidHandle⟩ commentedSource 0).self.IsValid = false ∧
    (Shader.Compile okDriver ⟨InvalidHandle⟩ commentedSource 0).gl.calls
      = [GLCall.glDeleteShader 0, GLCall.glDeleteShader 0, GLCall.glDeleteShader 0] := by
  refine ⟨by decide, by decide, by decide, by decide, by decide, by decide, by decide,
    by decide⟩

/-- Witness for C6: both stages of the two-stage source are attached to
program 3, linked and detached. -/
theorem Compile_link_sequence_witness :
    GLCall.glCreateProgram 3
      ∈ (Shader.Compile okDriver ⟨InvalidHandle⟩ twoStageSource 0).gl.calls ∧
    ∃ stage status rest,
      (Shader.Compile okDriver ⟨InvalidHandle⟩ twoStageSource 0).gl.calls
        = stage ++ GLCall.glCreateProgram 3
          :: (((createdShaders stage).map Prod.snd).map (GLCall.glAttachShader 3)
          ++ GLCall.glLinkProgram 3
          :: (((createdShaders stage).map Prod.snd).map (GLCall.glDetachShader 3)
          ++ GLCall.glGetProgramiv 3 GL_LINK_STATUS status :: rest)) ∧
      (∀ x ∈ stage, x.isStageCall = true) ∧
      (createdShaders stage).map Prod.fst
        = requestedTypes (shaderBodyOf twoStageSource) ShaderTypes ∧
      (∀ h ∈ (createdShaders stage).map Prod.snd, h ≠ InvalidHandle) ∧
      (∀ x ∈ rest, x.isLinkStepCall = false) ∧
      (Shader.Compile okDriver ⟨InvalidHandle⟩ twoStageSource 0).outcome
        = Outcome.returned (decide (status ≠ GL_FALSE)) :=
  ⟨by decide, Compile_link_sequence okDriver twoStageSource 0 3 (by decide) (by decide)⟩

/-- Witness for C9: the vertex stage of the two-stage source fails to compile,
and the fragment stage is never created. -/
theorem Compile_stops_at_compile_failure_witness :
    GLCall.glGetShaderiv 1 GL_COMPILE_STATUS GL_FALSE
      ∈ (Shader.Compile compileFailDriver ⟨InvalidHandle⟩ twoStageSource 0).gl.calls ∧
    (Shader.Compile compileFailDriver ⟨InvalidHandle⟩ twoStageSource 0).outcome
      = Outcome.returned false ∧
    createdShaders (Shader.Compile compileFailDriver ⟨InvalidHandle⟩ twoStageSource 0).gl.calls
      = [(GL_VERTEX_SHADER, 1)] :=
  ⟨by decide,
   (Compile_stops_at_compile_failure compileFailDriver twoStageSource 0 1 (by decide)).1,
   by decide⟩

/-! ## Sources without stage marker where the erase is exact -/

/-- When the version token starts the source, the body is a suffix of the
source. -/
theorem shaderBodyOf_suffix_of_leading (shaderCode : Str) (h : versionToken <+: shaderCode) :
    shaderBodyOf shaderCode <:+ shaderCode := by
  have hfind : find shaderCode versionToken 0 = 0 := by
    have := findFrom_first versionToken shaderCode 0 0 (Nat.zero_le _) (by simpa using h)
      (fun j hj => absurd hj (Nat.not_lt_zero j))
    simpa [find] using this
  have hn : (0 : Nat) ≠ npos := by decide
  unfold shaderBodyOf extractVersion
  simp only [hfind, ne_eq, hn, not_false_eq_true, if_true, substr, erase, Nat.not_lt_zero,
    if_false, Option.getD_some, List.take_zero, List.nil_append]
  exact List.drop_suffix _ _

/-- Where the erase of line 113 removes no more than the directive (the version
token is absent or starts the source), every non-empty source without stage
marker fails through the "no shader objects found" branch, with no object
created and the handle left Invalid. -/
theorem Compile_no_marker_where_version_leads (d : Driver σ) (shaderCode : Str) (s : σ)
    (hne : shaderCode ≠ [])
    (hnone : ∀ t ∈ ShaderTypes, ¬ t.define <:+: shaderCode)
    (hlead : ¬ versionToken <:+: shaderCode ∨ versionToken <+: shaderCode) :
    (Shader.Compile d ⟨InvalidHandle⟩ shaderCode s).outcome = Outcome.returned false ∧
    (Shader.Compile d ⟨InvalidHandle⟩ shaderCode s).self = ⟨InvalidHandle⟩ ∧
    (Shader.Compile d ⟨InvalidHandle⟩ shaderCode s).gl.calls
      = [GLCall.glDeleteShader 0, GLCall.glDeleteShader 0, GLCall.glDeleteShader 0] := by
  apply Compile_no_marker_in_body d shaderCode s hne
  intro t ht hin
  apply hnone t ht
  rcases hlead with habsent | hleading
  · have hb : shaderBodyOf shaderCode = shaderCode := by
      simp [shaderBodyOf, extractVersion_absent shaderCode habsent]
    rwa [hb] at hin
  · exact hin.trans (shaderBodyOf_suffix_of_leading shaderCode hleading).isInfix

end Graphics
